import Mathlib

/-!
# gopilot-cli: token lifecycle, device authorisation and stream decoding

A shallow embedding of `pkg/copilot.go`, `config.go`, `model.go` and `main.go`.
Go strings are byte sequences; the clock, the network and the file system are
explicit arguments.  The standard-library functions the program calls
(`url.ParseQuery`, `strconv.ParseInt`, `time.Unix`, `Time.After`, ...) are
embedded from their Go definitions.
-/

namespace Gopilot

set_option maxRecDepth 20000

/-! ## Go strings -/

/-- A Go string: a sequence of bytes, each a number below 256. -/
abbrev Bytes := List Nat

/-- The bytes of an ASCII literal. -/
def str (s : String) : Bytes := s.toList.map Char.toNat

/-- Go `strings.HasPrefix`. -/
def hasPrefix : Bytes → Bytes → Bool
  | _, [] => true
  | [], _ :: _ => false
  | c :: s, p :: ps => c == p && hasPrefix s ps

/-- Go `strings.Cut` with a one-byte separator: the text before the first
separator, the text after it, and whether the separator was found. -/
def cut (sep : Nat) : Bytes → Bytes × Bytes × Bool
  | [] => ([], [], false)
  | c :: cs =>
    if c = sep then ([], cs, true)
    else ((c :: (cut sep cs).1), (cut sep cs).2.1, (cut sep cs).2.2)

/-! ## net/url: query strings -/

/-- Go `url.ishex`. -/
def ishex (c : Nat) : Bool :=
  (48 ≤ c && c ≤ 57) || (97 ≤ c && c ≤ 102) || (65 ≤ c && c ≤ 70)

/-- Go `url.unhex`. -/
def unhex (c : Nat) : Nat :=
  if 48 ≤ c ∧ c ≤ 57 then c - 48
  else if 97 ≤ c ∧ c ≤ 102 then c - 97 + 10
  else if 65 ≤ c ∧ c ≤ 70 then c - 65 + 10
  else 0

/-- Go `url.QueryUnescape`: `%XX` becomes the byte `XX`, `+` becomes a space;
a `%` not followed by two hex digits is an error (`none`). -/
def QueryUnescape : Bytes → Option Bytes
  | [] => some []
  | c :: rest =>
    if c = 37 then
      match rest with
      | h1 :: h2 :: rest2 =>
        if ishex h1 && ishex h2 then
          (QueryUnescape rest2).map (fun r => (unhex h1 * 16 + unhex h2) :: r)
        else none
      | _ => none
    else if c = 43 then (QueryUnescape rest).map (fun r => 32 :: r)
    else (QueryUnescape rest).map (fun r => c :: r)

/-- The successive values of `key` in the loop of Go `url.parseQuery`:
`for query != "" { key, query, _ = strings.Cut(query, "&") ... }`. -/
def querySegments : Bytes → List Bytes
  | [] => []
  | c :: cs =>
    if c = 38 then [] :: querySegments cs
    else
      match querySegments cs with
      | [] => [[c]]
      | k :: ks => (c :: k) :: ks

/-- Go `url.Values`: the key/value pairs in the order they were appended, so the
values of one key keep their order. -/
abbrev Values := List (Bytes × Bytes)

/-- Go `Values.Get`: the first value of the key, or the empty string. -/
def Values.Get : Values → Bytes → Bytes
  | [], _ => []
  | (k, v) :: rest, key => if k = key then v else Values.Get rest key

/-- The body of the loop of Go `url.parseQuery`, over the segments: a segment
with a semicolon or a bad escape sets the error and is dropped, an empty
segment is dropped, any other one appends `key = value`. The second component
tells whether an error is returned. -/
def parseQuerySegments : List Bytes → Values × Bool
  | [] => ([], false)
  | seg :: segs =>
    let r := parseQuerySegments segs
    if seg.contains 59 then (r.1, true)
    else if seg = [] then r
    else
      match QueryUnescape (cut 61 seg).1 with
      | none => (r.1, true)
      | some key =>
        match QueryUnescape (cut 61 seg).2.1 with
        | none => (r.1, true)
        | some value => ((key, value) :: r.1, r.2)

/-- Go `url.ParseQuery` (Go 1.17 and later, where a semicolon is an error and not a
separator): always returns the values it could parse, together with an error
flag. -/
def ParseQuery (query : Bytes) : Values × Bool :=
  parseQuerySegments (querySegments query)

/-! ## strconv -/

/-- The digit loop of Go `strconv.ParseUint` in base 10, on unbounded naturals:
`none` on a byte that is not a decimal digit. -/
def parseDigits : Bytes → Nat → Option Nat
  | [], acc => some acc
  | c :: cs, acc => if 48 ≤ c ∧ c ≤ 57 then parseDigits cs (acc * 10 + (c - 48)) else none

/-- Go `strconv.ParseInt(s, 10, 64)`: an optional sign and one or more decimal digits, the
value within the signed 64-bit range; `none` for a syntax or a range error. -/
def ParseInt (s : Bytes) : Option Int :=
  match s with
  | [] => none
  | c :: rest =>
    let neg : Bool := c == 45
    let digits := if c = 43 ∨ c = 45 then rest else s
    if digits = [] then none
    else
      match parseDigits digits 0 with
      | none => none
      | some un =>
        if !neg && 2 ^ 63 ≤ un then none
        else if neg && 2 ^ 63 < un then none
        else some (if neg then - (un : Int) else (un : Int))

/-! ## time -/

/-- A Go `time.Time` as the comparison methods see it: the seconds since
January 1 of year 1 (the `sec()` accessor, an int64) and the nanoseconds. -/
structure Time where
  sec : Int
  nsec : Nat
deriving DecidableEq, Repr

/-- Go `time.unixToInternal`: seconds from year 1 to 1970. -/
def unixToInternal : Int := (1969 * 365 + 1969 / 4 - 1969 / 100 + 1969 / 400) * 86400

/-- Two's-complement wrap of an integer into the int64 range. -/
def wrapInt64 (x : Int) : Int := (x + 2 ^ 63) % 2 ^ 64 - 2 ^ 63

/-- Go `time.Unix(sec, 0)`: `Time{0, sec + unixToInternal, Local}`, the sum in int64. -/
def unixTime (sec : Int) : Time := ⟨wrapInt64 (sec + unixToInternal), 0⟩

/-- Go `Time.After` when one operand has no monotonic reading. -/
def Time.After (t u : Time) : Bool :=
  decide (t.sec > u.sec) || (decide (t.sec = u.sec) && decide (t.nsec > u.nsec))

/-- Go `Time.Unix`: the seconds since 1970. -/
def Time.Unix (t : Time) : Int := t.sec - unixToInternal

/-- A clock reading is well formed when its seconds fit an int64 and its
nanoseconds are below one second. -/
def Time.wf (t : Time) : Prop :=
  -(2 ^ 63 : Int) ≤ t.sec ∧ t.sec < 2 ^ 63 ∧ t.nsec < 10 ^ 9

instance (t : Time) : Decidable t.wf := by
  unfold Time.wf
  infer_instance

/-! ## pkg/copilot.go: tokens -/

/-- The `shortLivedToken` struct of copilot.go. -/
structure shortLivedToken where
  Token : Bytes
deriving DecidableEq, Repr

/-- The `longLivedToken` struct of copilot.go. -/
structure longLivedToken where
  Token : Bytes
deriving DecidableEq, Repr

/-- The method `shortLivedToken.Expired`, with `time.Now()` as the argument `now`. -/
def shortLivedToken.Expired (t : shortLivedToken) (now : Time) : Bool :=
  if t.Token = [] then true
  else
    let qs := ParseQuery t.Token
    if qs.2 then true
    else
      let exp := qs.1.Get (str "exp")
      if exp = [] then true
      else
        match ParseInt exp with
        | none => true
        | some parsedInt => now.After (unixTime parsedInt)


/-! ## unicode/utf8 -/

/-- Go `utf8.RuneError`, the replacement character U+FFFD. -/
def RuneError : Nat := 0xFFFD

/-- Go `utf8.DecodeRune`: the first rune of the bytes and its width; an invalid
or short encoding gives `(RuneError, 1)`, the empty input `(RuneError, 0)`.
The masks and shifts of the source are written as `%` and `*`. -/
def DecodeRune : Bytes → Nat × Nat
  | [] => (RuneError, 0)
  | p0 :: rest =>
    if p0 < 0x80 then (p0, 1)
    else if p0 < 0xC2 then (RuneError, 1)
    else if p0 < 0xE0 then
      match rest with
      | b1 :: _ =>
        if 0x80 ≤ b1 ∧ b1 ≤ 0xBF then (p0 % 32 * 64 + b1 % 64, 2) else (RuneError, 1)
      | [] => (RuneError, 1)
    else if p0 < 0xF0 then
      match rest with
      | b1 :: b2 :: _ =>
        if (if p0 = 0xE0 then 0xA0 else 0x80) ≤ b1 ∧ b1 ≤ (if p0 = 0xED then 0x9F else 0xBF)
            ∧ 0x80 ≤ b2 ∧ b2 ≤ 0xBF then
          (p0 % 16 * 4096 + b1 % 64 * 64 + b2 % 64, 3)
        else (RuneError, 1)
      | _ => (RuneError, 1)
    else if p0 < 0xF5 then
      match rest with
      | b1 :: b2 :: b3 :: _ =>
        if (if p0 = 0xF0 then 0x90 else 0x80) ≤ b1 ∧ b1 ≤ (if p0 = 0xF4 then 0x8F else 0xBF)
            ∧ 0x80 ≤ b2 ∧ b2 ≤ 0xBF ∧ 0x80 ≤ b3 ∧ b3 ≤ 0xBF then
          (p0 % 8 * 262144 + b1 % 64 * 4096 + b2 % 64 * 64 + b3 % 64, 4)
        else (RuneError, 1)
      | _ => (RuneError, 1)
    else (RuneError, 1)

/-- Go `utf8.EncodeRune`: the UTF-8 bytes of a rune; a surrogate or a value above
U+10FFFF is encoded as U+FFFD. -/
def EncodeRune (r : Nat) : Bytes :=
  if r ≤ 0x7F then [r]
  else if r ≤ 0x7FF then [0xC0 + r / 64, 0x80 + r % 64]
  else if 0x10FFFF < r ∨ (0xD800 ≤ r ∧ r ≤ 0xDFFF) then [0xEF, 0xBF, 0xBD]
  else if r ≤ 0xFFFF then [0xE0 + r / 4096, 0x80 + r / 64 % 64, 0x80 + r % 64]
  else [0xF0 + r / 262144, 0x80 + r / 4096 % 64, 0x80 + r / 64 % 64, 0x80 + r % 64]

/-- The loop of Go `utf8.Valid` from a position inside the text: `skip` bytes still
belong to the rune accepted last. -/
def validFrom : Nat → Bytes → Bool
  | _, [] => true
  | skip + 1, _ :: rest => validFrom skip rest
  | 0, p0 :: rest =>
    if p0 < 0x80 then validFrom 0 rest
    else if (DecodeRune (p0 :: rest)).2 = 1 then false
    else validFrom ((DecodeRune (p0 :: rest)).2 - 1) rest

/-- Go `utf8.Valid`: every rune of the bytes is a well-formed encoding. -/
def Valid (s : Bytes) : Bool := validFrom 0 s

/-! ## encoding/json: decoding -/

/-- A JSON value as the decoder walks it; a number keeps its literal, a string and
an object key are already unquoted. -/
inductive JValue where
  | null
  | bool (b : Bool)
  | number (lit : Bytes)
  | string (s : Bytes)
  | array (elems : List JValue)
  | object (members : List (Bytes × JValue))
deriving Repr

/-- Go `json.isSpace`. -/
def isSpace (c : Nat) : Bool := c == 32 || c == 9 || c == 13 || c == 10

/-- Drop leading JSON white space. -/
def skipSpace : Bytes → Bytes
  | [] => []
  | c :: rest => if isSpace c then skipSpace rest else c :: rest

/-- The value of a hexadecimal digit of a `\u` escape. -/
def hexDigit (c : Nat) : Option Nat :=
  if 48 ≤ c ∧ c ≤ 57 then some (c - 48)
  else if 97 ≤ c ∧ c ≤ 102 then some (c - 97 + 10)
  else if 65 ≤ c ∧ c ≤ 70 then some (c - 65 + 10)
  else none

/-- Go `json.getu4` on the four digits after `\u`. -/
def hex4 (h1 h2 h3 h4 : Nat) : Option Nat :=
  match hexDigit h1, hexDigit h2, hexDigit h3, hexDigit h4 with
  | some a, some b, some c, some d => some (a * 4096 + b * 256 + c * 16 + d)
  | _, _, _, _ => none

/-- The byte a one-letter escape stands for, as the scanner state
`stateInStringEsc` accepts them. -/
def simpleEscape (e : Nat) : Option Nat :=
  if e = 34 then some 34          -- \"
  else if e = 92 then some 92     -- \\
  else if e = 47 then some 47     -- \/
  else if e = 98 then some 8      -- \b
  else if e = 102 then some 12    -- \f
  else if e = 110 then some 10    -- \n
  else if e = 114 then some 13    -- \r
  else if e = 116 then some 9     -- \t
  else none

/-- The rune of a surrogate pair: `rr` is the value of a `\u` escape in the
surrogate range and `s` the input after it. Go `utf16.DecodeRune(rr, getu4(s))`
when that is a valid pair (a high surrogate, then a `\u` escape of a low one),
`none` otherwise. -/
def surrogatePair (rr : Nat) (s : Bytes) : Option Nat :=
  match s with
  | b :: u :: g1 :: g2 :: g3 :: g4 :: _ =>
    if b = 92 ∧ u = 117 then
      match hex4 g1 g2 g3 g4 with
      | some rr1 =>
        if rr < 0xDC00 ∧ 0xDC00 ≤ rr1 ∧ rr1 < 0xE000 then
          some ((rr - 0xD800) * 1024 + (rr1 - 0xDC00) + 0x10000)
        else none
      | none => none
    else none
  | _ => none

/-- Put already decoded bytes in front of the result of the rest of a string. -/
def emit (out : Bytes) (r : Option (Bytes × Bytes)) : Option (Bytes × Bytes) :=
  r.map (fun p => (out ++ p.1, p.2))

/-- What one step of `unquoteBytes` finds at the head of the text of a string. -/
inductive StringStep where
  | close
  | error
  | out (bytes : Bytes) (width : Nat)
deriving DecidableEq, Repr

/-- One step inside a JSON string: the scanner states `stateInString`,
`stateInStringEsc*` together with one turn of the loop of `unquoteBytes`. At the
closing quote `close`; at a control byte, a bad escape or the end of the input
`error`; otherwise the unquoted bytes and the number of input bytes they stand
for. A byte sequence that is not valid UTF-8 and a lone surrogate escape become
U+FFFD; a surrogate pair of escapes becomes one rune. -/
def stringStep : Bytes → StringStep
  | [] => StringStep.error
  | c :: rest =>
    if c = 34 then StringStep.close
    else if c = 92 then
      match rest with
      | [] => StringStep.error
      | e :: rest1 =>
        if e = 117 then
          match rest1 with
          | h1 :: h2 :: h3 :: h4 :: rest2 =>
            match hex4 h1 h2 h3 h4 with
            | none => StringStep.error
            | some rr =>
              if 0xD800 ≤ rr ∧ rr < 0xE000 then
                match surrogatePair rr rest2 with
                | some dec => StringStep.out (EncodeRune dec) 12
                | none => StringStep.out (EncodeRune RuneError) 6
              else StringStep.out (EncodeRune rr) 6
          | _ => StringStep.error
        else
          match simpleEscape e with
          | some b => StringStep.out [b] 2
          | none => StringStep.error
    else if c < 32 then StringStep.error
    else if c < 0x80 then StringStep.out [c] 1
    else StringStep.out (EncodeRune (DecodeRune (c :: rest)).1) (DecodeRune (c :: rest)).2

/-- A JSON string from a position inside it: `skip` bytes still belong to the step
taken last. Returns the unquoted string and the input after the closing quote. -/
def parseStringFrom : Nat → Bytes → Option (Bytes × Bytes)
  | _, [] => none
  | skip + 1, _ :: rest => parseStringFrom skip rest
  | 0, c :: rest =>
    match stringStep (c :: rest) with
    | StringStep.close => some ([], rest)
    | StringStep.error => none
    | StringStep.out bytes width => emit bytes (parseStringFrom (width - 1) rest)

/-- A JSON string after its opening quote: the unquoted string and the input after
the closing quote; `none` for a string the scanner rejects. -/
def parseString (s : Bytes) : Option (Bytes × Bytes) := parseStringFrom 0 s

/-- The longest prefix of decimal digits and what follows it. -/
def spanDigits : Bytes → Bytes × Bytes
  | [] => ([], [])
  | c :: rest =>
    if 48 ≤ c ∧ c ≤ 57 then (c :: (spanDigits rest).1, (spanDigits rest).2) else ([], c :: rest)

/-- The exponent part of a number (scanner states `stateE`, `stateESign`, `stateE0`),
on the input after the integer and fraction parts. -/
def parseExponent (s : Bytes) : Option (Bytes × Bytes) :=
  match s with
  | e :: rest =>
    if e = 101 ∨ e = 69 then
      match rest with
      | sg :: rest1 =>
        if sg = 43 ∨ sg = 45 then
          if (spanDigits rest1).1 = [] then none
          else some (e :: sg :: (spanDigits rest1).1, (spanDigits rest1).2)
        else if (spanDigits rest).1 = [] then none
        else some (e :: (spanDigits rest).1, (spanDigits rest).2)
      | [] => none
    else some ([], s)
  | [] => some ([], s)

/-- The fraction and exponent parts of a number (scanner states `state0`, `stateDot`,
`stateDot0`), on the input after the integer part. -/
def parseFraction (s : Bytes) : Option (Bytes × Bytes) :=
  match s with
  | d :: rest =>
    if d = 46 then
      if (spanDigits rest).1 = [] then none
      else (parseExponent (spanDigits rest).2).map
        (fun p => (d :: (spanDigits rest).1 ++ p.1, p.2))
    else parseExponent s
  | [] => some ([], s)

/-- The integer, fraction and exponent parts of a number after an optional minus sign
(scanner states `stateNeg`, `state0`, `state1`). -/
def parseUnsignedNumber (s : Bytes) : Option (Bytes × Bytes) :=
  match s with
  | c :: rest =>
    if c = 48 then (parseFraction rest).map (fun p => (c :: p.1, p.2))
    else if 49 ≤ c ∧ c ≤ 57 then
      (parseFraction (spanDigits rest).2).map (fun p => (c :: (spanDigits rest).1 ++ p.1, p.2))
    else none
  | [] => none

/-- A JSON number: its literal and the input after it. -/
def parseNumber (s : Bytes) : Option (Bytes × Bytes) :=
  match s with
  | c :: rest =>
    if c = 45 then (parseUnsignedNumber rest).map (fun p => (c :: p.1, p.2))
    else parseUnsignedNumber s
  | [] => none

/-- Strip a literal prefix. -/
def stripPrefix : Bytes → Bytes → Option Bytes
  | s, [] => some s
  | [], _ :: _ => none
  | c :: s, p :: ps => if c = p then stripPrefix s ps else none

/-- Go `json.maxNestingDepth`. -/
def maxNestingDepth : Nat := 10000

mutual
/-- One JSON value at the head of the input (which starts at its first byte,
white space already skipped), as the scanner of Go `encoding/json` accepts it;
`depth` counts the enclosing arrays and objects. The first argument bounds the
recursion: a call uses one unit and a byte of input costs at most two, so twice
the length of the input and one more is always enough (`parseValue_fuel`). -/
def parseValue : Nat → Nat → Bytes → Option (JValue × Bytes)
  | 0, _, _ => none
  | fuel + 1, depth, s =>
    match s with
    | [] => none
    | c :: rest =>
      if c = 123 then
        if maxNestingDepth ≤ depth then none
        else
          match skipSpace rest with
          | [] => none
          | d :: rest1 =>
            if d = 125 then some (JValue.object [], rest1)
            else (parseMembers fuel (depth + 1) (d :: rest1)).map
              (fun p => (JValue.object p.1, p.2))
      else if c = 91 then
        if maxNestingDepth ≤ depth then none
        else
          match skipSpace rest with
          | [] => none
          | d :: rest1 =>
            if d = 93 then some (JValue.array [], rest1)
            else (parseElements fuel (depth + 1) (d :: rest1)).map
              (fun p => (JValue.array p.1, p.2))
      else if c = 34 then (parseString rest).map (fun p => (JValue.string p.1, p.2))
      else if c = 116 then (stripPrefix rest (str "rue")).map (fun r => (JValue.bool true, r))
      else if c = 102 then (stripPrefix rest (str "alse")).map (fun r => (JValue.bool false, r))
      else if c = 110 then (stripPrefix rest (str "ull")).map (fun r => (JValue.null, r))
      else (parseNumber s).map (fun p => (JValue.number p.1, p.2))
/-- The members of an object from the first key up to and including the closing
brace. -/
def parseMembers : Nat → Nat → Bytes → Option (List (Bytes × JValue) × Bytes)
  | 0, _, _ => none
  | fuel + 1, depth, s =>
    match s with
    | [] => none
    | q :: rest =>
      if q = 34 then
        match parseString rest with
        | none => none
        | some (key, rest1) =>
          match skipSpace rest1 with
          | [] => none
          | colon :: rest2 =>
            if colon = 58 then
              match parseValue fuel depth (skipSpace rest2) with
              | none => none
              | some (v, rest3) =>
                match skipSpace rest3 with
                | [] => none
                | d :: rest4 =>
                  if d = 125 then some ([(key, v)], rest4)
                  else if d = 44 then
                    (parseMembers fuel depth (skipSpace rest4)).map
                      (fun p => ((key, v) :: p.1, p.2))
                  else none
            else none
      else none
/-- The elements of an array from the first element up to and including the
closing bracket. -/
def parseElements : Nat → Nat → Bytes → Option (List JValue × Bytes)
  | 0, _, _ => none
  | fuel + 1, depth, s =>
    match parseValue fuel depth s with
    | none => none
    | some (v, rest) =>
      match skipSpace rest with
      | [] => none
      | d :: rest1 =>
        if d = 93 then some ([v], rest1)
        else if d = 44 then
          (parseElements fuel depth (skipSpace rest1)).map (fun p => (v :: p.1, p.2))
        else none
end

/-- Go `json.Unmarshal` up to the typed store: `checkValid` accepts exactly one
value with white space around it, over the whole input. The scanner of the
source has no bound of its own; the fuel given here is never used up. -/
def parseDocument (data : Bytes) : Option JValue :=
  match parseValue (2 * data.length + 1) 0 (skipSpace data) with
  | none => none
  | some (v, rest) => if skipSpace rest = [] then some v else none

/-- Go `Decoder.Decode` up to the typed store: the first value of the stream; what
follows it is not looked at. `readErr` tells that the stream ended with a read
error instead of EOF, which only matters when a top-level string, number or
literal is the last thing read. -/
def parseFirst (data : Bytes) (readErr : Bool) : Option JValue :=
  match parseValue (2 * data.length + 1) 0 (skipSpace data) with
  | none => none
  | some (JValue.object ms, _) => some (JValue.object ms)
  | some (JValue.array vs, _) => some (JValue.array vs)
  | some (v, rest) => if rest = [] ∧ readErr = true then none else some v

/-- Upper-case an ASCII letter. -/
def upperASCII (c : Nat) : Nat := if 97 ≤ c ∧ c ≤ 122 then c - 32 else c

/-- Go `json.foldName` as far as a comparison with an ASCII field name can tell:
ASCII letters are upper-cased, U+017F (long s) folds to `S` and U+212A (Kelvin
sign) to `K`; no other rune folds to an ASCII letter, so the others are kept. -/
def foldName : Bytes → Bytes
  | [] => []
  | c :: rest =>
    if c < 0x80 then upperASCII c :: foldName rest
    else
      match c, rest with
      | 0xC5, 0xBF :: r2 => 83 :: foldName r2
      | 0xE2, 0x84 :: 0xAA :: r3 => 75 :: foldName r3
      | _, r => c :: foldName r

/-- Whether an object key selects the struct field with the given JSON name: an
exact match or, failing that, a match of the folded names. -/
def fieldMatch (key name : Bytes) : Bool :=
  key == name || foldName key == foldName name

/-- Store a JSON value into a Go `string`: a string is stored, `null` leaves the
field as it is, anything else is an `UnmarshalTypeError` (flag `false`). -/
def storeString (v : JValue) (cur : Bytes) : Bytes × Bool :=
  match v with
  | JValue.string s => (s, true)
  | JValue.null => (cur, true)
  | _ => (cur, false)

/-- Store a JSON value into a Go `int` (64 bits): a number whose literal
`strconv.ParseInt` accepts is stored, `null` leaves the field as it is, anything
else is an `UnmarshalTypeError`. -/
def storeInt (v : JValue) (cur : Int) : Int × Bool :=
  match v with
  | JValue.number lit =>
    match ParseInt lit with
    | some n => (n, true)
    | none => (cur, false)
  | JValue.null => (cur, true)
  | _ => (cur, false)

/-! ## encoding/json: encoding -/

/-- The digit of Go `json.hex = "0123456789abcdef"` at an index below 16. -/
def hexChar (n : Nat) : Nat := if n < 10 then 48 + n else 87 + n

/-- Go `json.htmlSafeSet`: the ASCII bytes written without an escape when HTML
escaping is on (the default of an `Encoder`). -/
def htmlSafe (b : Nat) : Bool :=
  decide (0x20 ≤ b) && decide (b < 0x80) && b != 34 && b != 92 && b != 60 && b != 62 && b != 38

/-- One turn of the loop of Go `json.appendString` with `escapeHTML`, at the byte `b`
followed by `rest`: what is written, and the width of the rune read. Bytes that
are not valid UTF-8 are written as `\ufffd`, U+2028 and U+2029 as escapes, any
other rune as its own bytes. -/
def appendStringStep (b : Nat) (rest : Bytes) : Bytes × Nat :=
  if b < 0x80 then
    if htmlSafe b then ([b], 1)
    else if b = 92 ∨ b = 34 then ([92, b], 1)
    else if b = 8 then ([92, 98], 1)
    else if b = 12 then ([92, 102], 1)
    else if b = 10 then ([92, 110], 1)
    else if b = 13 then ([92, 114], 1)
    else if b = 9 then ([92, 116], 1)
    else ([92, 117, 48, 48, hexChar (b / 16), hexChar (b % 16)], 1)
  else if (DecodeRune (b :: rest)).1 = RuneError ∧ (DecodeRune (b :: rest)).2 = 1 then
    ([92, 117, 102, 102, 102, 100], 1)
  else if (DecodeRune (b :: rest)).1 = 0x2028 ∨ (DecodeRune (b :: rest)).1 = 0x2029 then
    ([92, 117, 50, 48, 50, hexChar ((DecodeRune (b :: rest)).1 % 16)],
      (DecodeRune (b :: rest)).2)
  else ((b :: rest).take (DecodeRune (b :: rest)).2, (DecodeRune (b :: rest)).2)

/-- The loop of Go `json.appendString` from a position inside the text: `skip` bytes
still belong to the rune written last. -/
def appendStringFrom : Nat → Bytes → Bytes
  | _, [] => []
  | skip + 1, _ :: rest => appendStringFrom skip rest
  | 0, b :: rest =>
    (appendStringStep b rest).1 ++ appendStringFrom ((appendStringStep b rest).2 - 1) rest

/-- The text between the quotes of the JSON string for a Go string. -/
def appendStringBody (s : Bytes) : Bytes := appendStringFrom 0 s

/-- Go `json.appendString`: a Go string as a quoted JSON string. -/
def appendString (s : Bytes) : Bytes := 34 :: (appendStringBody s ++ [34])

/-! ## The network -/

/-- What the program reads of an HTTP response: the status code, the value of the
`Content-Type` header, the body bytes, and whether reading the body ends with an
error instead of EOF. -/
structure Response where
  StatusCode : Nat
  ContentType : Bytes
  Body : Bytes
  bodyErr : Bool
deriving DecidableEq, Repr

/-- The requests the program sends, with the value each one carries. -/
inductive Request where
  | deviceCode
  | accessToken (deviceCode : Bytes)
  | copilotToken (llToken : Bytes)
  | completion (slToken : Bytes)
deriving DecidableEq, Repr

/-- The world outside the process: the answers the coming requests will get
(`none` is a transport failure of `client.Do`), the requests sent so far, and
the durations in seconds of the `time.Sleep` calls made so far. -/
structure World where
  replies : List (Option Response)
  requests : List Request
  slept : List Nat
deriving DecidableEq, Repr

/-- Go `client.Do`: logs the request and takes the next answer; with no answer
left the transport fails. -/
def World.Do (w : World) (req : Request) : Option Response × World :=
  match w.replies with
  | [] => (none, { w with requests := w.requests ++ [req] })
  | r :: rs => (r, { w with replies := rs, requests := w.requests ++ [req] })

/-- Go `time.Sleep` of a number of seconds. -/
def World.Sleep (w : World) (seconds : Nat) : World :=
  { w with slept := w.slept ++ [seconds] }

/-- The errors the program builds with `fmt.Errorf`, one constructor per site.
`http.NewRequest` cannot fail on the constant methods and URLs used, so its sites
have no constructor. -/
inductive GoError where
  | clientDo
  | readBody
  | unmarshalDeviceCode
  | checkAuthStatus (code : Nat)
  | parseCheckAuth
  | checkAuthResponse (urlErr : Bytes)
  | unsupportedContentType (ct : Bytes)
  | longLivedTokenEmpty
  | decodeToken
  | tokenEmpty
  | marshalPayload
  | completionStatus (code : Nat)
  | authenticationFailed
deriving DecidableEq, Repr

/-! ## pkg/copilot.go -/

/-- The `Copilot` struct. -/
structure Copilot where
  SlToken : shortLivedToken
  LlToken : longLivedToken
deriving DecidableEq, Repr

/-- The function `New`. -/
def New : Copilot := ⟨⟨[]⟩, ⟨[]⟩⟩

/-- The `DeviceCodeResponse` struct; the comments give the JSON names. -/
structure DeviceCodeResponse where
  DeviceCode : Bytes        -- device_code
  UserCode : Bytes          -- user_code
  VerificationUri : Bytes   -- verification_uri
  ExpiresIn : Int           -- expires_in
  Interval : Int            -- interval
deriving DecidableEq, Repr

/-- The `CompletionChoice` struct (JSON name `text`). -/
structure CompletionChoice where
  Text : Bytes
deriving DecidableEq, Repr

/-- The `CompletionResponse` struct (JSON name `choices`). -/
structure CompletionResponse where
  Choices : List CompletionChoice
deriving DecidableEq, Repr

/-- The `TokenResponse` struct (JSON name `token`). -/
structure TokenResponse where
  Token : Bytes
deriving DecidableEq, Repr

/-- Store the members of a JSON object into a `DeviceCodeResponse`, in order; the
flag turns false on a type error. -/
def DeviceCodeResponse.storeMembers :
    List (Bytes × JValue) → DeviceCodeResponse × Bool → DeviceCodeResponse × Bool
  | [], acc => acc
  | (k, v) :: ms, (cur, ok) =>
    if fieldMatch k (str "device_code") then
      DeviceCodeResponse.storeMembers ms
        ({ cur with DeviceCode := (storeString v cur.DeviceCode).1 },
          ok && (storeString v cur.DeviceCode).2)
    else if fieldMatch k (str "user_code") then
      DeviceCodeResponse.storeMembers ms
        ({ cur with UserCode := (storeString v cur.UserCode).1 },
          ok && (storeString v cur.UserCode).2)
    else if fieldMatch k (str "verification_uri") then
      DeviceCodeResponse.storeMembers ms
        ({ cur with VerificationUri := (storeString v cur.VerificationUri).1 },
          ok && (storeString v cur.VerificationUri).2)
    else if fieldMatch k (str "expires_in") then
      DeviceCodeResponse.storeMembers ms
        ({ cur with ExpiresIn := (storeInt v cur.ExpiresIn).1 },
          ok && (storeInt v cur.ExpiresIn).2)
    else if fieldMatch k (str "interval") then
      DeviceCodeResponse.storeMembers ms
        ({ cur with Interval := (storeInt v cur.Interval).1 },
          ok && (storeInt v cur.Interval).2)
    else DeviceCodeResponse.storeMembers ms (cur, ok)

/-- Go `json.Unmarshal(data, &deviceResp)` on a zero `DeviceCodeResponse`: `none` for
a syntax error or a type error. -/
def DeviceCodeResponse.Unmarshal (data : Bytes) : Option DeviceCodeResponse :=
  match parseDocument data with
  | none => none
  | some (JValue.object ms) =>
    let r := DeviceCodeResponse.storeMembers ms (⟨[], [], [], 0, 0⟩, true)
    if r.2 then some r.1 else none
  | some JValue.null => some ⟨[], [], [], 0, 0⟩
  | some _ => none

/-- Store the members of a JSON object into a `CompletionChoice`. -/
def CompletionChoice.storeMembers :
    List (Bytes × JValue) → CompletionChoice × Bool → CompletionChoice × Bool
  | [], acc => acc
  | (k, v) :: ms, (cur, ok) =>
    if fieldMatch k (str "text") then
      CompletionChoice.storeMembers ms
        (⟨(storeString v cur.Text).1⟩, ok && (storeString v cur.Text).2)
    else CompletionChoice.storeMembers ms (cur, ok)

/-- Store a JSON value into a `CompletionChoice`: an object member by member,
`null` leaves it as it is, anything else is a type error. -/
def CompletionChoice.store (v : JValue) (cur : CompletionChoice) : CompletionChoice × Bool :=
  match v with
  | JValue.object ms => CompletionChoice.storeMembers ms (cur, true)
  | JValue.null => (cur, true)
  | _ => (cur, false)

/-- A `[]CompletionChoice` while `json.Unmarshal` stores into it: the backing array
and the length. What lies in the backing array past the length stays there when
the slice is truncated and is seen again when the slice is extended; storage past
the end of the backing array is new and zero. -/
structure ChoiceSlice where
  backing : List CompletionChoice
  len : Nat
deriving DecidableEq, Repr

/-- The elements of the slice. -/
def ChoiceSlice.elems (s : ChoiceSlice) : List CompletionChoice := s.backing.take s.len

/-- The loop of `decodeState.array` over the elements of a JSON array, on the backing
array of the slice: element `i` is stored into what the backing array holds at
`i` (also past the old length), or into a zero element once the backing array is
used up and the slice grows; what lies past the last element stays in place.
Returns the backing array afterwards. -/
def storeChoices : List JValue → List CompletionChoice → List CompletionChoice × Bool
  | [], backing => (backing, true)
  | v :: vs, backing =>
    ((CompletionChoice.store v (backing.headD ⟨[]⟩)).1 :: (storeChoices vs backing.tail).1,
      (CompletionChoice.store v (backing.headD ⟨[]⟩)).2 && (storeChoices vs backing.tail).2)

/-- Store a JSON value into the field `Choices`: a non-empty array element by element,
the length becoming the number of elements; an empty array gives a new empty
slice and `null` the nil slice, both without backing array; anything else is a
type error. -/
def storeChoicesField (v : JValue) (cur : ChoiceSlice) : ChoiceSlice × Bool :=
  match v with
  | JValue.array [] => (⟨[], 0⟩, true)
  | JValue.array (e :: es) =>
    (⟨(storeChoices (e :: es) cur.backing).1, (e :: es).length⟩,
      (storeChoices (e :: es) cur.backing).2)
  | JValue.null => (⟨[], 0⟩, true)
  | _ => (cur, false)

/-- Store the members of a JSON object into a `CompletionResponse`, whose field
`Choices` is carried as a slice with its backing array. -/
def CompletionResponse.storeMembers :
    List (Bytes × JValue) → ChoiceSlice × Bool → ChoiceSlice × Bool
  | [], acc => acc
  | (k, v) :: ms, (cur, ok) =>
    if fieldMatch k (str "choices") then
      CompletionResponse.storeMembers ms
        ((storeChoicesField v cur).1, ok && (storeChoicesField v cur).2)
    else CompletionResponse.storeMembers ms (cur, ok)

/-- Go `json.Unmarshal(data, &completion)` on a zero `CompletionResponse`: `none` for
a syntax error or a type error. -/
def CompletionResponse.Unmarshal (data : Bytes) : Option CompletionResponse :=
  match parseDocument data with
  | none => none
  | some (JValue.object ms) =>
    let r := CompletionResponse.storeMembers ms (⟨[], 0⟩, true)
    if r.2 then some ⟨r.1.elems⟩ else none
  | some JValue.null => some ⟨[]⟩
  | some _ => none

/-- Store the members of a JSON object into a `TokenResponse`. -/
def TokenResponse.storeMembers :
    List (Bytes × JValue) → TokenResponse × Bool → TokenResponse × Bool
  | [], acc => acc
  | (k, v) :: ms, (cur, ok) =>
    if fieldMatch k (str "token") then
      TokenResponse.storeMembers ms
        (⟨(storeString v cur.Token).1⟩, ok && (storeString v cur.Token).2)
    else TokenResponse.storeMembers ms (cur, ok)

/-- Go `json.NewDecoder(resp.Body).Decode(&tokenResp)` on a zero `TokenResponse`: the
first JSON value of the body; `none` for a read, syntax or type error. -/
def TokenResponse.Decode (body : Bytes) (bodyErr : Bool) : Option TokenResponse :=
  match parseFirst body bodyErr with
  | none => none
  | some (JValue.object ms) =>
    let r := TokenResponse.storeMembers ms (⟨[]⟩, true)
    if r.2 then some r.1 else none
  | some JValue.null => some ⟨[]⟩
  | some _ => none

instance {ε α : Type} [DecidableEq ε] [DecidableEq α] : DecidableEq (Except ε α)
  | Except.ok a, Except.ok b =>
    if h : a = b then isTrue (congrArg Except.ok h)
    else isFalse (fun h1 => h (Except.ok.inj h1))
  | Except.error a, Except.error b =>
    if h : a = b then isTrue (congrArg Except.error h)
    else isFalse (fun h1 => h (Except.error.inj h1))
  | Except.ok _, Except.error _ => isFalse (fun h => Except.noConfusion h)
  | Except.error _, Except.ok _ => isFalse (fun h => Except.noConfusion h)

/-- The method `Copilot.GetDeviceCodeCmd`: one POST to the device-code URL; the body
is read whole and unmarshalled. The status code is not looked at. -/
def Copilot.GetDeviceCodeCmd (w : World) : Except GoError DeviceCodeResponse × World :=
  match w.Do Request.deviceCode with
  | (none, w1) => (Except.error GoError.clientDo, w1)
  | (some resp, w1) =>
    if resp.bodyErr then (Except.error GoError.readBody, w1)
    else
      match DeviceCodeResponse.Unmarshal resp.Body with
      | none => (Except.error GoError.unmarshalDeviceCode, w1)
      | some deviceResp => (Except.ok deviceResp, w1)

/-- The result of `Copilot.CheckAuthStatusCmd`: the two returned values `(bool, error)`,
the receiver afterwards and the world afterwards. -/
structure CheckAuthResult where
  done : Bool
  err : Option GoError
  c : Copilot
  w : World
deriving DecidableEq, Repr

/-- The method `Copilot.CheckAuthStatusCmd`: one POST to the access-token URL. The
media type is `strings.SplitN(resp.Header.Get("Content-Type"), ";", 2)[0]`. -/
def Copilot.CheckAuthStatusCmd (c : Copilot) (deviceCode : Bytes) (w : World) :
    CheckAuthResult :=
  match w.Do (Request.accessToken deviceCode) with
  | (none, w1) => ⟨true, some GoError.clientDo, c, w1⟩
  | (some resp, w1) =>
    if resp.StatusCode ≠ 200 then ⟨true, some (GoError.checkAuthStatus resp.StatusCode), c, w1⟩
    else if resp.bodyErr then ⟨true, some GoError.readBody, c, w1⟩
    else
      let ct := (cut 59 resp.ContentType).1
      if ct = str "application/x-www-form-urlencoded" then
        let q := ParseQuery resp.Body
        if q.2 then ⟨true, some GoError.parseCheckAuth, c, w1⟩
        else
          let urlErr := q.1.Get (str "error")
          if urlErr = str "authorization_pending" then
            ⟨false, none, c, w1.Sleep 5⟩
          else if urlErr ≠ [] then ⟨true, some (GoError.checkAuthResponse urlErr), c, w1⟩
          else
            let token := q.1.Get (str "access_token")
            if token ≠ [] then ⟨true, none, { c with LlToken := ⟨token⟩ }, w1⟩
            else ⟨true, some (GoError.checkAuthResponse (q.1.Get (str "error"))), c, w1⟩
      else ⟨true, some (GoError.unsupportedContentType ct), c, w1⟩

/-- The method `Copilot.RefreshToken`: the returned error (`none` is `nil`), the
receiver afterwards and the world afterwards. One GET to the token URL,
authorised with the long-lived token; the status code is not looked at. -/
def Copilot.RefreshToken (c : Copilot) (w : World) : Option GoError × Copilot × World :=
  if c.LlToken.Token = [] then (some GoError.longLivedTokenEmpty, c, w)
  else
    match w.Do (Request.copilotToken c.LlToken.Token) with
    | (none, w1) => (some GoError.clientDo, c, w1)
    | (some resp, w1) =>
      match TokenResponse.Decode resp.Body resp.bodyErr with
      | none => (some GoError.decodeToken, c, w1)
      | some tokenResp => (none, { c with SlToken := ⟨tokenResp.Token⟩ }, w1)

/-! ### The stream decoder of `GetCopilotCompletion` -/

/-- Go `bufio.MaxScanTokenSize`. -/
def maxScanTokenSize : Nat := 65536

/-- The pieces of a text between separators, a trailing separator ending the last
piece: for a newline, the raw lines of a body. -/
def segments (sep : Nat) : Bytes → List Bytes
  | [] => []
  | c :: cs =>
    if c = sep then [] :: segments sep cs
    else
      match segments sep cs with
      | [] => [[c]]
      | k :: ks => (c :: k) :: ks

/-- Go `bufio.dropCR`. -/
def dropCR (line : Bytes) : Bytes :=
  if line.getLast? = some 13 then line.dropLast else line

/-- The raw lines a `bufio.Scanner` gets through: it stops for good (`ErrTooLong`) at
the first line that does not fit its buffer of `maxScanTokenSize` bytes. -/
def scannable : List Bytes → List Bytes
  | [] => []
  | l :: ls => if l.length < maxScanTokenSize then l :: scannable ls else []

/-- The lines `scanner.Text()` yields over a body with `bufio.ScanLines`. -/
def scanLines (body : Bytes) : List Bytes :=
  (scannable (segments 10 body)).map dropCR

/-- The loop of the goroutine of `GetCopilotCompletion` over the scanned lines: the
events sent on the channel, in order. -/
def decodeLines : List Bytes → List CompletionResponse
  | [] => []
  | line :: rest =>
    if hasPrefix line (str "data: \x7b") then
      match CompletionResponse.Unmarshal (line.drop 6) with
      | none => decodeLines rest
      | some completion => completion :: decodeLines rest
    else decodeLines rest

/-- The goroutine of `GetCopilotCompletion` on a response body. -/
def decodeBody (body : Bytes) : List CompletionResponse :=
  decodeLines (scanLines body)

/-- The method `Copilot.GetCopilotCompletion`: the events of the returned channel, or
the error. `marshalErr` tells whether `json.Marshal(payload)` fails (it does only
for a `topP` or `temperature` that is not a finite number). -/
def Copilot.GetCopilotCompletion (c : Copilot) (marshalErr : Bool) (w : World) :
    Except GoError (List CompletionResponse) × World :=
  if c.SlToken.Token = [] then (Except.error GoError.tokenEmpty, w)
  else if marshalErr then (Except.error GoError.marshalPayload, w)
  else
    match w.Do (Request.completion c.SlToken.Token) with
    | (none, w1) => (Except.error GoError.clientDo, w1)
    | (some resp, w1) =>
      if resp.StatusCode ≠ 200 then (Except.error (GoError.completionStatus resp.StatusCode), w1)
      else (Except.ok (decodeBody resp.Body), w1)

/-! ## model.go: the device-authorisation program -/

/-- The `spinner.Model` of the bubbles library as far as `Update` goes: the frame
shown, the identity of the spinner and the tag of the tick it waits for. -/
structure Spinner where
  frame : Nat
  id : Nat
  tag : Nat
deriving DecidableEq, Repr

/-- The number of frames of `spinner.Dot`. -/
def spinnerFrames : Nat := 8

/-- The method `spinner.Model.Update` on a `TickMsg` with the given ID and tag: a tick
of another spinner, or one with a tag other than the awaited one, is dropped
(`nil` command, second component `false`); otherwise the frame advances and
wraps after the last one, the tag advances, and the next tick is asked for. -/
def Spinner.Update (s : Spinner) (ID tag : Nat) : Spinner × Bool :=
  if 0 < ID ∧ ID ≠ s.id then (s, false)
  else if 0 < tag ∧ tag ≠ s.tag then (s, false)
  else (⟨if spinnerFrames ≤ s.frame + 1 then 0 else s.frame + 1, s.id, s.tag + 1⟩, true)

/-- The `model` struct. The field `c` is the `*Copilot` the program shares with
`setup`. -/
structure model where
  spinner : Spinner
  deviceCode : Option DeviceCodeResponse
  c : Copilot
  authenticated : Bool
  err : Option GoError
  quitting : Bool
deriving DecidableEq, Repr

/-- The messages `Update` distinguishes: a key press (Ctrl-C or another key), a
spinner tick with its ID and tag, and the three message types of model.go. -/
inductive Msg where
  | key (ctrlC : Bool)
  | tick (ID : Nat) (tag : Nat)
  | deviceCodeMsg (response : Option DeviceCodeResponse)
  | authStatusMsg (authenticated : Bool)
  | errMsg (err : GoError)
deriving DecidableEq, Repr

/-- The commands `Update` returns: `nil`, `tea.Quit`, the next spinner tick (with the
ID and tag its message will carry), and the closure built by `checkAuthWrapper`. -/
inductive Cmd where
  | none
  | quit
  | spinnerTick (ID : Nat) (tag : Nat)
  | checkAuth
deriving DecidableEq, Repr

/-- The function `initialModel`, with `myModel.c = c` of `setup`: `spinner.New()` gives
the first spinner of the process, with ID 1, at frame 0 and tag 0. -/
def initialModel (c : Copilot) : model :=
  ⟨⟨0, 1, 0⟩, none, c, false, none, false⟩

/-- The method `model.Update`. -/
def model.Update (m : model) (msg : Msg) : model × Cmd :=
  match msg with
  | Msg.key ctrlC =>
    if ctrlC then ({ m with quitting := true }, Cmd.quit) else (m, Cmd.none)
  | Msg.tick ID tag =>
    ({ m with spinner := (m.spinner.Update ID tag).1 },
      if (m.spinner.Update ID tag).2
      then Cmd.spinnerTick (m.spinner.Update ID tag).1.id (m.spinner.Update ID tag).1.tag
      else Cmd.none)
  | Msg.deviceCodeMsg response => ({ m with deviceCode := response }, Cmd.checkAuth)
  | Msg.authStatusMsg authenticated =>
    if authenticated then ({ m with authenticated := true }, Cmd.quit)
    else (m, Cmd.checkAuth)
  | Msg.errMsg err => ({ m with err := some err }, Cmd.quit)

/-- The closure returned by `checkAuthWrapper`, run by the program: the message it
produces, with the model (whose `c` the call may change) and the world afterwards.
`none` is the nil-pointer panic of `m.deviceCode.DeviceCode` without a device code. -/
def model.checkAuth (m : model) (w : World) : Option (Msg × model × World) :=
  match m.deviceCode with
  | none => none
  | some dc =>
    let r := m.c.CheckAuthStatusCmd dc.DeviceCode w
    if !r.done then some (Msg.deviceCodeMsg m.deviceCode, { m with c := r.c }, r.w)
    else
      match r.err with
      | some err => some (Msg.errMsg err, { m with c := r.c }, r.w)
      | none => some (Msg.authStatusMsg true, { m with c := r.c }, r.w)

/-- The command of `model.Init` that asks for the device code (the spinner tick
of the batch left aside). -/
def model.initCmd (w : World) : Msg × World :=
  match Copilot.GetDeviceCodeCmd w with
  | (Except.error err, w1) => (Msg.errMsg err, w1)
  | (Except.ok codeResp, w1) => (Msg.deviceCodeMsg (some codeResp), w1)

/-- How a run of the program ends. -/
inductive RunResult where
  | quit (m : model) (w : World)
  | idle (m : model) (w : World)
  | panic (w : World)
  | outOfFuel
deriving DecidableEq, Repr

/-- The event loop of `tea.Program.Run` along the chain of authorisation messages:
a message goes to `Update`, the command it returns is run and its message comes
next; `tea.Quit` ends the run. Spinner ticks and key presses come from outside
this chain and are not fed in (a Ctrl-C would end the run early). The loop has no
bound of its own, so the number of messages handled is bounded by the first
argument. -/
def runLoop : Nat → model → Msg → World → RunResult
  | 0, _, _, _ => RunResult.outOfFuel
  | fuel + 1, m, msg, w =>
    match m.Update msg with
    | (m1, Cmd.quit) => RunResult.quit m1 w
    | (m1, Cmd.none) => RunResult.idle m1 w
    | (m1, Cmd.spinnerTick _ _) => RunResult.idle m1 w
    | (m1, Cmd.checkAuth) =>
      match m1.checkAuth w with
      | none => RunResult.panic w
      | some (msg1, m2, w1) => runLoop fuel m2 msg1 w1

/-- The function `setup`: the error it returns (`none` is `nil`), the `Copilot` behind
the pointer and the world afterwards; `none` as a whole when the run does not
end within the bound or not by `tea.Quit`. A failure of `p.Run()` itself (no
terminal to draw on) is left out. -/
def setup (fuel : Nat) (c : Copilot) (w : World) : Option (Option GoError × Copilot × World) :=
  match runLoop fuel (initialModel c) (model.initCmd w).1 (model.initCmd w).2 with
  | RunResult.quit m w1 =>
    if !m.authenticated then some (some GoError.authenticationFailed, m.c, w1)
    else some (none, m.c, w1)
  | _ => none

/-! ## config.go: the token file -/

/-- The `Config` struct (JSON names `shortLivedToken` and `longLivedToken`). -/
structure Config where
  ShortLivedToken : Bytes
  LongLivedToken : Bytes
deriving DecidableEq, Repr

/-- What `os.Stat(configDir)` reports. -/
inductive StatResult where
  | dir
  | notDir
  | notExist
  | otherErr
deriving DecidableEq, Repr

/-- The file system as config.go sees it: the state of the directory of
`configPath`, the contents of the file at `configPath` (`none` when it does not
exist), and whether `os.MkdirAll`, `os.OpenFile`, the write of the encoder and
`os.ReadFile` of an existing file fail. -/
structure FS where
  configDir : StatResult
  file : Option Bytes
  mkdirFails : Bool
  openFails : Bool
  writeFails : Bool
  readFails : Bool
deriving DecidableEq, Repr

/-- The errors of config.go, one constructor per `fmt.Errorf` site. -/
inductive ConfigError where
  | readToken
  | invalidToken
  | createConfigDir
  | notADirectory
  | openTokenFile
  | encodeToken
deriving DecidableEq, Repr

/-- Store the members of a JSON object into a `Config`. -/
def Config.storeMembers : List (Bytes × JValue) → Config × Bool → Config × Bool
  | [], acc => acc
  | (k, v) :: ms, (cur, ok) =>
    if fieldMatch k (str "shortLivedToken") then
      Config.storeMembers ms
        ({ cur with ShortLivedToken := (storeString v cur.ShortLivedToken).1 },
          ok && (storeString v cur.ShortLivedToken).2)
    else if fieldMatch k (str "longLivedToken") then
      Config.storeMembers ms
        ({ cur with LongLivedToken := (storeString v cur.LongLivedToken).1 },
          ok && (storeString v cur.LongLivedToken).2)
    else Config.storeMembers ms (cur, ok)

/-- Go `json.Unmarshal(fileContent, &cfg)` on a zero `Config`. -/
def Config.Unmarshal (data : Bytes) : Option Config :=
  match parseDocument data with
  | none => none
  | some (JValue.object ms) =>
    let r := Config.storeMembers ms (⟨[], []⟩, true)
    if r.2 then some r.1 else none
  | some JValue.null => some ⟨[], []⟩
  | some _ => none

/-- What `json.NewEncoder(f).Encode(cfg)` writes: the object with the two fields in
declaration order, and a newline. -/
def Config.Encode (cfg : Config) : Bytes :=
  str "\x7b\"shortLivedToken\":" ++ appendString cfg.ShortLivedToken
    ++ str ",\"longLivedToken\":" ++ appendString cfg.LongLivedToken ++ str "\x7d\n"

/-- The function `getConfig`: `ok none` is the return `nil, nil` for a missing file. -/
def getConfig (fs : FS) : Except ConfigError (Option Config) :=
  match fs.file with
  | none => Except.ok none
  | some fileContent =>
    if fs.readFails then Except.error ConfigError.readToken
    else
      match Config.Unmarshal fileContent with
      | none => Except.error ConfigError.invalidToken
      | some cfg => Except.ok (some cfg)

/-- The function `storeConfig`: the returned error (`none` is `nil`) and the file system
afterwards. A `Stat` error other than "not exist" is passed over, as in the
source; opening truncates the file before the encoder writes. -/
def storeConfig (cfg : Config) (fs : FS) : Option ConfigError × FS :=
  match fs.configDir with
  | StatResult.notDir => (some ConfigError.notADirectory, fs)
  | StatResult.notExist =>
    if fs.mkdirFails then (some ConfigError.createConfigDir, fs)
    else if fs.openFails then
      (some ConfigError.openTokenFile, { fs with configDir := StatResult.dir })
    else if fs.writeFails then
      (some ConfigError.encodeToken, { fs with configDir := StatResult.dir, file := some [] })
    else (none, { fs with configDir := StatResult.dir, file := some cfg.Encode })
  | _ =>
    if fs.openFails then (some ConfigError.openTokenFile, fs)
    else if fs.writeFails then (some ConfigError.encodeToken, { fs with file := some [] })
    else (none, { fs with file := some cfg.Encode })

/-! ## main.go -/

/-- The `log.Fatal` sites of `checkAndUpdateTokens`. -/
inductive Fatal where
  | getConfig (err : ConfigError)
  | setup (err : GoError)
  | storeToken (err : ConfigError)
  | refreshToken (err : GoError)
  | storeUpdatedConfig (err : ConfigError)
deriving DecidableEq, Repr

/-- How `checkAndUpdateTokens` ends: it returns, or the process exits at a
`log.Fatal`, or `setup` does not come back within the bound; each with the
`Copilot` behind the pointer, the world and the file system at that moment. -/
inductive Outcome where
  | returned (c : Copilot) (w : World) (fs : FS)
  | fatal (site : Fatal) (c : Copilot) (w : World) (fs : FS)
  | noReturn
deriving DecidableEq, Repr

/-- The second half of `checkAndUpdateTokens`, from `if c.SlToken.Expired()` on, with
the record `cfg` the first half ends with. -/
def ensureValid (now : Time) (cfg : Config) (c : Copilot) (w : World) (fs : FS) : Outcome :=
  if c.SlToken.Expired now then
    match c.RefreshToken w with
    | (some err, c1, w1) => Outcome.fatal (Fatal.refreshToken err) c1 w1 fs
    | (none, c1, w1) =>
      match storeConfig { cfg with ShortLivedToken := c1.SlToken.Token } fs with
      | (some err, fs1) => Outcome.fatal (Fatal.storeUpdatedConfig err) c1 w1 fs1
      | (none, fs1) =>
        Outcome.returned ⟨⟨c1.SlToken.Token⟩, ⟨cfg.LongLivedToken⟩⟩ w1 fs1
  else Outcome.returned ⟨⟨cfg.ShortLivedToken⟩, ⟨cfg.LongLivedToken⟩⟩ w fs

/-- The function `checkAndUpdateTokens`; `now` is the reading of `time.Now()` inside
`Expired`, `fuel` the bound on the messages of `setup`. -/
def checkAndUpdateTokens (fuel : Nat) (now : Time) (c : Copilot) (w : World) (fs : FS) :
    Outcome :=
  match getConfig fs with
  | Except.error err => Outcome.fatal (Fatal.getConfig err) c w fs
  | Except.ok none =>
    match setup fuel c w with
    | none => Outcome.noReturn
    | some (some err, c1, w1) => Outcome.fatal (Fatal.setup err) c1 w1 fs
    | some (none, c1, w1) =>
      match storeConfig ⟨c1.SlToken.Token, c1.LlToken.Token⟩ fs with
      | (some err, fs1) => Outcome.fatal (Fatal.storeToken err) c1 w1 fs1
      | (none, fs1) => ensureValid now ⟨c1.SlToken.Token, c1.LlToken.Token⟩ c1 w1 fs1
  | Except.ok (some cfg) =>
    ensureValid now cfg ⟨⟨cfg.ShortLivedToken⟩, ⟨cfg.LongLivedToken⟩⟩ w fs

/-- The loop `for resp := range ch { fmt.Print(resp.Choices[0].Text) }` of `main`: the
text printed, and `false` when the index expression `resp.Choices[0]` panicked
(index out of range) and ended the process. -/
def printChoices : List CompletionResponse → Bytes × Bool
  | [] => ([], true)
  | resp :: rest =>
    match resp.Choices with
    | [] => ([], false)
    | choice :: _ => (choice.Text ++ (printChoices rest).1, (printChoices rest).2)

/-! ## Polling answers -/

/-- The media type `CheckAuthStatusCmd` accepts. -/
def formMediaType : Bytes := str "application/x-www-form-urlencoded"

/-- A polling answer the program can decode: status 200, a readable body, the
form-url-encoded media type. -/
def Response.isForm (r : Response) : Prop :=
  r.StatusCode = 200 ∧ r.bodyErr = false ∧ (cut 59 r.ContentType).1 = formMediaType

instance (r : Response) : Decidable r.isForm := by
  unfold Response.isForm
  infer_instance

/-- A polling answer that says `error=authorization_pending`. -/
def Response.isPending (r : Response) : Prop :=
  r.isForm ∧ (ParseQuery r.Body).2 = false
    ∧ (ParseQuery r.Body).1.Get (str "error") = str "authorization_pending"

instance (r : Response) : Decidable r.isPending := by
  unfold Response.isPending
  infer_instance

/-- A polling answer without `error` value and with the non-empty `access_token`
value `T`. -/
def Response.grants (r : Response) (T : Bytes) : Prop :=
  r.isForm ∧ (ParseQuery r.Body).2 = false
    ∧ (ParseQuery r.Body).1.Get (str "error") = []
    ∧ (ParseQuery r.Body).1.Get (str "access_token") = T ∧ T ≠ []

instance (r : Response) (T : Bytes) : Decidable (r.grants T) := by
  unfold Response.grants
  infer_instance

/-! ## Example inputs -/

/-- A device code whose polling interval is 10 seconds. -/
def deviceCode10 : DeviceCodeResponse :=
  ⟨str "dev", str "ABCD-1234", str "https://github.com/login/device", 900, 10⟩

/-- A form-url-encoded answer with status 200 and the given body. -/
def formReply (body : Bytes) : Response :=
  ⟨200, str "application/x-www-form-urlencoded; charset=utf-8", body, false⟩

/-- The answers pending, pending, `access_token=T`. -/
def pollingWorld : World :=
  ⟨[some (formReply (str "error=authorization_pending&error_description=wait")),
    some (formReply (str "error=authorization_pending&error_description=wait")),
    some (formReply (str "access_token=T&token_type=bearer&scope="))], [], []⟩

/-- The JSON answer of the device-code endpoint for `deviceCode10`. -/
def deviceCodeReply : Response :=
  ⟨200, str "application/json",
    str "\x7b\"device_code\":\"dev\",\"user_code\":\"ABCD-1234\",\"verification_uri\":\"https://github.com/login/device\",\"expires_in\":900,\"interval\":10\x7d",
    false⟩

/-- A token file holding the short-lived token `exp=100` and the long-lived token
`gho_x`, in a file system without faults. -/
def cachedFS : FS :=
  ⟨StatResult.dir, some (str "\x7b\"shortLivedToken\":\"exp=100\",\"longLivedToken\":\"gho_x\"\x7d\n"),
    false, false, false, false⟩

/-- A file system without faults in which neither the configuration directory nor
the token file exists yet. -/
def freshFS : FS := ⟨StatResult.notExist, none, false, false, false, false⟩

/-- A response body made of the given raw lines, each ended by a newline. -/
def joinLines : List Bytes → Bytes
  | [] => []
  | l :: ls => l ++ 10 :: joinLines ls

/-- A raw line of 65536 letters `a`: with its newline, one byte more than the buffer
of a `bufio.Scanner` holds. -/
def longLine : Bytes := List.replicate 65536 97

/-- The JSON object with the single member `token`, as `encoding/json` writes a
`TokenResponse`. -/
def tokenBody (T : Bytes) : Bytes :=
  str "\x7b\"token\":" ++ appendString T ++ str "\x7d"

/-- A world whose next answer is a token response carrying the token `exp=9999`
among other members. -/
def refreshWorld : World :=
  ⟨[some ⟨200, str "application/json",
      str "\x7b\"expires_at\":9999,\"refresh_in\":1500,\"token\":\"exp=9999\"\x7d", false⟩],
    [], []⟩

/-- The file system of `cachedFS` on a full disk: the token file opens, the write
fails. -/
def fullDiskFS : FS := { cachedFS with writeFails := true }

/-! # Theorems -/

/-! ## Token expiry -/

theorem wrapInt64_of_range (x : Int) (h1 : -(2 ^ 63 : Int) ≤ x) (h2 : x < 2 ^ 63) :
    wrapInt64 x = x := by
  unfold wrapInt64
  omega

theorem wrapInt64_le (x : Int) (h1 : -(2 ^ 63 : Int) ≤ x) : wrapInt64 x ≤ x := by
  unfold wrapInt64
  omega

theorem ParseInt_range (s : Bytes) (E : Int) (h : ParseInt s = some E) :
    -(2 ^ 63 : Int) ≤ E ∧ E < 2 ^ 63 := by
  cases s with
  | nil => simp [ParseInt] at h
  | cons c rest =>
    simp only [ParseInt] at h
    generalize (if c = 43 ∨ c = 45 then rest else c :: rest) = digits at h
    by_cases hd : digits = []
    · simp [hd] at h
    · simp only [hd, if_false] at h
      cases hp : parseDigits digits 0 with
      | none => simp [hp] at h
      | some un =>
        simp only [hp] at h
        by_cases hc : c = 45
        · simp only [hc, beq_self_eq_true, Bool.not_true, Bool.false_and, Bool.false_eq_true,
            if_false, Bool.true_and, decide_eq_true_eq, if_true] at h
          split at h
          · cases h
          · simp only [Option.some.injEq] at h
            omega
        · have hb : (c == 45) = false := by simpa using hc
          simp only [hb, Bool.not_false, Bool.true_and, decide_eq_true_eq, Bool.false_and,
            Bool.false_eq_true, if_false] at h
          split at h
          · cases h
          · simp only [Option.some.injEq] at h
            omega

theorem unixToInternal_eq : unixToInternal = 62135596800 := by decide

/-- The value of `Expired` on a token whose `exp` value parses: the comparison of the clock
with `time.Unix(E, 0)`, or `true` when the query string has an error. -/
theorem Expired_of_exp (t : shortLivedToken) (E : Int) (now : Time)
    (hE : ParseInt ((ParseQuery t.Token).1.Get (str "exp")) = some E) :
    t.Expired now = ((ParseQuery t.Token).2 || now.After (unixTime E)) := by
  have hexp : (ParseQuery t.Token).1.Get (str "exp") ≠ [] := by
    intro h0
    rw [h0] at hE
    simp [ParseInt] at hE
  have hne : t.Token ≠ [] := by
    intro h0
    apply hexp
    rw [h0]
    rfl
  unfold shortLivedToken.Expired
  simp only [hne, if_false, hexp, hE]
  cases (ParseQuery t.Token).2 <;> simp

/-- C1, as stated, fails: the token `exp=100` read at the instant 100 s after the
Unix epoch exactly (zero nanoseconds) has its `exp` at the current time, and
`Expired` returns false. -/
theorem C1_not_expired_at_exact_expiry :
    ParseInt ((ParseQuery (str "exp=100")).1.Get (str "exp")) = some 100
      ∧ (Time.mk (100 + unixToInternal) 0).Unix = 100
      ∧ (Time.mk (100 + unixToInternal) 0).nsec = 0
      ∧ (shortLivedToken.mk (str "exp=100")).Expired (Time.mk (100 + unixToInternal) 0) = false := by
  decide

/-- C1, amended: for a token whose first `exp` value parses as the timestamp `E` and
a well-formed clock reading `now`, `Expired` returns true when `E` is strictly
before `now` (an earlier second, or the same second with nanoseconds elapsed);
it returns false only when `E` is at or after `now`; and when the query string
parses without error and `now` is the instant `E` exactly, it returns false. -/
theorem C1_expired_strictly_after (t : shortLivedToken) (E : Int) (now : Time)
    (hE : ParseInt ((ParseQuery t.Token).1.Get (str "exp")) = some E)
    (hnow : now.wf) :
    ((E < now.Unix ∨ (E = now.Unix ∧ 0 < now.nsec)) → t.Expired now = true)
      ∧ (t.Expired now = false → now.Unix ≤ E ∧ (now.Unix = E → now.nsec = 0))
      ∧ ((ParseQuery t.Token).2 = false → E = now.Unix → now.nsec = 0 →
          t.Expired now = false) := by
  have hr := ParseInt_range _ _ hE
  have hoff := unixToInternal_eq
  obtain ⟨hlo, hhi, _⟩ := hnow
  rw [Expired_of_exp t E now hE]
  have hwle := wrapInt64_le (E + unixToInternal) (by omega)
  refine ⟨?_, ?_, ?_⟩
  · intro h
    have hw : wrapInt64 (E + unixToInternal) = E + unixToInternal := by
      apply wrapInt64_of_range
      · omega
      · unfold Time.Unix at h
        omega
    simp only [Time.After, unixTime, hw, Bool.or_eq_true, Bool.and_eq_true, decide_eq_true_eq]
    unfold Time.Unix at h
    right
    rcases h with h | ⟨h1, h2⟩
    · left
      omega
    · right
      exact ⟨by omega, h2⟩
  · intro h
    simp only [Time.After, unixTime, Bool.or_eq_false_iff, Bool.and_eq_false_imp,
      decide_eq_true_eq, decide_eq_false_iff_not, not_lt] at h
    obtain ⟨_, h1, h2⟩ := h
    unfold Time.Unix
    refine ⟨by omega, ?_⟩
    intro heq
    have : now.sec = wrapInt64 (E + unixToInternal) := by omega
    have := h2 this
    omega
  · intro hq heq hns
    have hw : wrapInt64 (E + unixToInternal) = now.sec := by
      unfold Time.Unix at heq
      rw [wrapInt64_of_range] <;> omega
    simp [Time.After, unixTime, hw, hq, hns]

/-- The amended C1 at the token `exp=100` and the clock one nanosecond after that
instant. -/
theorem C1_expired_strictly_after_witness :
    (shortLivedToken.mk (str "exp=100")).Expired (Time.mk (100 + unixToInternal) 1) = true :=
  (C1_expired_strictly_after (shortLivedToken.mk (str "exp=100")) 100
    (Time.mk (100 + unixToInternal) 1) (by decide) (by decide)).1 (by decide)

/-- C2: `Expired` fails closed. It returns true, whatever the clock, for the empty
token, for a token `url.ParseQuery` rejects, for a token without `exp` value (or
with an empty one), and for a first `exp` value that `strconv.ParseInt` (base 10,
64 bits) rejects. -/
theorem C2_expired_fail_closed (t : shortLivedToken) (now : Time)
    (h : t.Token = [] ∨ (ParseQuery t.Token).2 = true
      ∨ (ParseQuery t.Token).1.Get (str "exp") = []
      ∨ ParseInt ((ParseQuery t.Token).1.Get (str "exp")) = none) :
    t.Expired now = true := by
  unfold shortLivedToken.Expired
  by_cases h0 : t.Token = []
  · simp [h0]
  · by_cases h1 : (ParseQuery t.Token).2 = true
    · simp [h0, h1]
    · by_cases h2 : (ParseQuery t.Token).1.Get (str "exp") = []
      · simp [h0, h1, h2]
      · rcases h with h | h | h | h
        · exact absurd h h0
        · exact absurd h h1
        · exact absurd h h2
        · simp [h0, h1, h2, h]

/-- C2 at the token `tid=1&exp=12x`, whose `exp` value is not a number, read long
before any expiry. -/
theorem C2_expired_fail_closed_witness :
    (shortLivedToken.mk (str "tid=1&exp=12x")).Expired (Time.mk 0 0) = true :=
  C2_expired_fail_closed (shortLivedToken.mk (str "tid=1&exp=12x")) (Time.mk 0 0)
    (Or.inr (Or.inr (Or.inr (by decide))))

/-! ## The stream decoder -/

/-- The loop over the scanned lines sends, in order, the successful decodings of
`line[6:]` for the lines with the prefix. -/
theorem decodeLines_eq_filterMap (lines : List Bytes) :
    decodeLines lines
      = lines.filterMap (fun line =>
          if hasPrefix line (str "data: \x7b") = true
          then CompletionResponse.Unmarshal (line.drop 6) else none) := by
  induction lines with
  | nil => rfl
  | cons line rest ih =>
    by_cases hp : hasPrefix line (str "data: \x7b") = true
    · cases hu : CompletionResponse.Unmarshal (line.drop 6) with
      | none => simp [decodeLines, List.filterMap_cons, hp, hu, ih]
      | some ev => simp [decodeLines, List.filterMap_cons, hp, hu, ih]
    · simp [decodeLines, List.filterMap_cons, hp, ih]

/-- A scanner gets through all the raw lines when each is shorter than its buffer. -/
theorem scannable_short (ls : List Bytes) (h : ∀ l ∈ ls, l.length < maxScanTokenSize) :
    scannable ls = ls := by
  induction ls with
  | nil => rfl
  | cons l rest ih =>
    rw [scannable, if_pos (h l (List.mem_cons_self l rest)),
      ih (fun x hx => h x (List.mem_cons_of_mem l hx))]

/-- Over a response body whose raw lines are each shorter than the scanner buffer, the
events are the successful decodings, in order, of the lines with the prefix. -/
theorem decodeBody_short_lines (body : Bytes)
    (h : ∀ l ∈ segments 10 body, l.length < maxScanTokenSize) :
    decodeBody body
      = ((segments 10 body).map dropCR).filterMap (fun line =>
          if hasPrefix line (str "data: \x7b") = true
          then CompletionResponse.Unmarshal (line.drop 6) else none) := by
  unfold decodeBody scanLines
  rw [scannable_short _ h, decodeLines_eq_filterMap]

/-- The first raw line of a body is the text before its first newline. -/
theorem segments_append_newline (l rest : Bytes) (h : 10 ∉ l) :
    segments 10 (l ++ 10 :: rest) = l :: segments 10 rest := by
  induction l with
  | nil =>
    rw [List.nil_append, segments, if_pos rfl]
  | cons c t ih =>
    have hc : c ≠ 10 := fun hc => h (hc ▸ List.mem_cons_self c t)
    have ht : 10 ∉ t := fun ht => h (List.mem_cons_of_mem c ht)
    rw [List.cons_append, segments, if_neg hc, ih ht]

/-- The raw lines of a body made of newline-ended lines are those lines. -/
theorem segments_joinLines (lines : List Bytes) (h : ∀ l ∈ lines, 10 ∉ l) :
    segments 10 (joinLines lines) = lines := by
  induction lines with
  | nil => rfl
  | cons l rest ih =>
    rw [joinLines, segments_append_newline l _ (h l (List.mem_cons_self l rest)),
      ih (fun x hx => h x (List.mem_cons_of_mem l hx))]

/-- C3, as stated, fails: in the body made of a line of 65536 letters `a` (no prefix)
and the line `data: {"choices":[{"text":"x"}]}`, the second line decodes to an
event with the text `x`, yet the decoder sends no event at all: the scanner
gives up at the long line and the later line is never read. -/
theorem C3_long_line_ends_the_stream :
    longLine.length = 65536
      ∧ hasPrefix longLine (str "data: \x7b") = false
      ∧ decodeLines [str "data: \x7b\"choices\":[\x7b\"text\":\"x\"\x7d]\x7d"]
          = [CompletionResponse.mk [CompletionChoice.mk (str "x")]]
      ∧ decodeBody
          (joinLines [longLine, str "data: \x7b\"choices\":[\x7b\"text\":\"x\"\x7d]\x7d"])
          = [] := by
  have hlen : longLine.length = 65536 := by
    unfold longLine
    rw [List.length_replicate]
  have hnl : (10 : Nat) ∉ longLine := by
    unfold longLine
    intro h
    have := List.eq_of_mem_replicate h
    omega
  refine ⟨hlen, rfl, by decide, ?_⟩
  unfold decodeBody scanLines
  rw [joinLines, segments_append_newline _ _ hnl, scannable,
    if_neg (by rw [hlen]; decide)]
  rfl

/-- C3, amended: for every sequence of raw lines (without newline inside) that are each
shorter than the 65536 bytes of the scanner buffer, the events the decoder of
`GetCopilotCompletion` sends over the body made of these lines are, in the order
of the lines, the successful decodings of `line[6:]` for the lines that start
with `data: {`, a line being the raw line without its trailing carriage return;
lines without the prefix and lines that fail to decode send nothing and do not
stop the decoding of later lines. So such a line `bad` with the prefix that fails
to decode, followed by `data: {"choices":[{"text":"x"}]}`, gives exactly one
event, with the text `x`. -/
theorem C3_decoder_events (lines : List Bytes) (bad : Bytes)
    (hnl : ∀ l ∈ lines, 10 ∉ l)
    (hshort : ∀ l ∈ lines, l.length < maxScanTokenSize)
    (hbnl : 10 ∉ bad) (hbshort : bad.length < maxScanTokenSize)
    (hpre : hasPrefix (dropCR bad) (str "data: \x7b") = true)
    (hbad : CompletionResponse.Unmarshal ((dropCR bad).drop 6) = none) :
    decodeBody (joinLines lines)
        = (lines.map dropCR).filterMap (fun line =>
            if hasPrefix line (str "data: \x7b") = true
            then CompletionResponse.Unmarshal (line.drop 6) else none)
      ∧ decodeBody (joinLines [bad, str "data: \x7b\"choices\":[\x7b\"text\":\"x\"\x7d]\x7d"])
        = [CompletionResponse.mk [CompletionChoice.mk (str "x")]] := by
  have key : ∀ ls : List Bytes, (∀ l ∈ ls, 10 ∉ l) → (∀ l ∈ ls, l.length < maxScanTokenSize) →
      decodeBody (joinLines ls) = decodeLines (ls.map dropCR) := by
    intro ls h1 h2
    unfold decodeBody scanLines
    rw [segments_joinLines ls h1, scannable_short ls h2]
  constructor
  · rw [key lines hnl hshort, decodeLines_eq_filterMap]
  · have hgood : decodeLines [str "data: \x7b\"choices\":[\x7b\"text\":\"x\"\x7d]\x7d"]
        = [CompletionResponse.mk [CompletionChoice.mk (str "x")]] := by decide
    have hg1 : (10 : Nat) ∉ str "data: \x7b\"choices\":[\x7b\"text\":\"x\"\x7d]\x7d" := by decide
    have hg2 : (str "data: \x7b\"choices\":[\x7b\"text\":\"x\"\x7d]\x7d").length
        < maxScanTokenSize := by decide
    have hg3 : dropCR (str "data: \x7b\"choices\":[\x7b\"text\":\"x\"\x7d]\x7d")
        = str "data: \x7b\"choices\":[\x7b\"text\":\"x\"\x7d]\x7d" := by decide
    rw [key _ (by
        intro l hl
        rcases List.mem_cons.mp hl with h | h
        · exact h ▸ hbnl
        · rw [List.mem_singleton.mp h]
          exact hg1)
      (by
        intro l hl
        rcases List.mem_cons.mp hl with h | h
        · exact h ▸ hbshort
        · rw [List.mem_singleton.mp h]
          exact hg2)]
    simp only [List.map_cons, List.map_nil, hg3]
    rw [decodeLines.eq_2, if_pos hpre, hbad]
    exact hgood

/-- The amended C3 at the body of the three lines `data: {oops`, `: keep-alive` and
`data: {"choices":[{"text":"x"}]}`, ended by carriage return and newline. -/
theorem C3_decoder_events_witness :
    decodeBody (str "data: \x7boops\r\n: keep-alive\r\ndata: \x7b\"choices\":[\x7b\"text\":\"x\"\x7d]\x7d\r\n")
      = [CompletionResponse.mk [CompletionChoice.mk (str "x")]] :=
  (C3_decoder_events
    [str "data: \x7boops\r", str ": keep-alive\r",
      str "data: \x7b\"choices\":[\x7b\"text\":\"x\"\x7d]\x7d\r"]
    (str "data: \x7boops") (by decide) (by decide) (by decide) (by decide) (by decide)
    (by decide)).1.trans (by decide)

/-- C9 fails on the code: the body lines `data: {}` and `data: {"choices":[]}` each
send an event without any choice, and the loop of `main` then panics on
`resp.Choices[0]`. -/
theorem C9_event_without_choices :
    decodeBody (str "data: \x7b\x7d\n") = [CompletionResponse.mk []]
      ∧ decodeBody (str "data: \x7b\"choices\":[]\x7d\n") = [CompletionResponse.mk []]
      ∧ printChoices (decodeBody (str "data: \x7b\x7d\n")) = ([], false)
      ∧ printChoices (decodeBody (str "data: \x7b\"choices\":[]\x7d\n")) = ([], false) := by
  decide

/-! ## Refreshing the short-lived token -/

/-- C10 fails on the code: with the long-lived token `gho_x`, the answer
`401 {"message":"Bad credentials"}` decodes without a `token` field, and
`RefreshToken` returns nil after storing the empty short-lived token. -/
theorem C10_refresh_stores_empty_token :
    Copilot.RefreshToken (Copilot.mk ⟨str "exp=1"⟩ ⟨str "gho_x"⟩)
        (World.mk [some (Response.mk 401 (str "application/json")
          (str "\x7b\"message\":\"Bad credentials\"\x7d") false)] [] [])
      = (none, Copilot.mk ⟨[]⟩ ⟨str "gho_x"⟩,
          World.mk [] [Request.copilotToken (str "gho_x")] []) := by
  decide

/-- When `RefreshToken` returns an error, the receiver is unchanged. -/
theorem RefreshToken_error_keeps_tokens (c c1 : Copilot) (w w1 : World) (err : GoError)
    (h : c.RefreshToken w = (some err, c1, w1)) : c1 = c := by
  unfold Copilot.RefreshToken at h
  split at h
  · simp only [Prod.mk.injEq] at h
    exact h.2.1.symm
  · split at h
    · simp only [Prod.mk.injEq] at h
      exact h.2.1.symm
    · split at h
      · simp only [Prod.mk.injEq] at h
        exact h.2.1.symm
      · simp at h

/-! ## Device authorisation -/

/-- The result of `CheckAuthStatusCmd` on a pending answer: not done, no error, a sleep of five
seconds, the receiver unchanged. -/
theorem CheckAuthStatusCmd_pending (c : Copilot) (deviceCode : Bytes) (w : World)
    (r : Response) (rest : List (Option Response))
    (hw : w.replies = some r :: rest) (hr : r.isPending) :
    c.CheckAuthStatusCmd deviceCode w
      = ⟨false, none, c,
          ⟨rest, w.requests ++ [Request.accessToken deviceCode], w.slept ++ [5]⟩⟩ := by
  obtain ⟨⟨h200, hbody, hct⟩, hq, herr⟩ := hr
  simp [Copilot.CheckAuthStatusCmd, World.Do, World.Sleep, hw, h200, hbody, hct, hq, herr,
    formMediaType]

/-- The result of `CheckAuthStatusCmd` on an answer that grants `T`: done, no error, the long-lived
token set to `T`, no sleep. -/
theorem CheckAuthStatusCmd_grants (c : Copilot) (deviceCode : Bytes) (w : World)
    (r : Response) (rest : List (Option Response)) (T : Bytes)
    (hw : w.replies = some r :: rest) (hr : r.grants T) :
    c.CheckAuthStatusCmd deviceCode w
      = ⟨true, none, { c with LlToken := ⟨T⟩ },
          ⟨rest, w.requests ++ [Request.accessToken deviceCode], w.slept⟩⟩ := by
  obtain ⟨⟨h200, hbody, hct⟩, hq, herr, htok, hT⟩ := hr
  have hne : ([] : Bytes) ≠ str "authorization_pending" := by decide
  subst htok
  simp [Copilot.CheckAuthStatusCmd, World.Do, hw, h200, hbody, hct, hq, herr,
    formMediaType, hne, hT]

/-- The result of `CheckAuthStatusCmd` on an answer with status 200 and the form media type whose
`error` value is neither empty nor `authorization_pending`: done, with an error,
the receiver unchanged, no sleep. -/
theorem CheckAuthStatusCmd_denied (c : Copilot) (deviceCode : Bytes) (w : World)
    (r : Response) (rest : List (Option Response))
    (hw : w.replies = some r :: rest)
    (h200 : r.StatusCode = 200)
    (hct : (cut 59 r.ContentType).1 = formMediaType)
    (herr : (ParseQuery r.Body).1.Get (str "error") ≠ [])
    (hnp : (ParseQuery r.Body).1.Get (str "error") ≠ str "authorization_pending") :
    ∃ err, c.CheckAuthStatusCmd deviceCode w
      = ⟨true, some err, c,
          ⟨rest, w.requests ++ [Request.accessToken deviceCode], w.slept⟩⟩ := by
  by_cases hbody : r.bodyErr = true
  · exact ⟨GoError.readBody, by
      simp [Copilot.CheckAuthStatusCmd, World.Do, hw, h200, hbody]⟩
  · by_cases hq : (ParseQuery r.Body).2 = true
    · exact ⟨GoError.parseCheckAuth, by
        simp [Copilot.CheckAuthStatusCmd, World.Do, hw, h200, hbody, hct, hq, formMediaType]⟩
    · exact ⟨GoError.checkAuthResponse ((ParseQuery r.Body).1.Get (str "error")), by
        simp [Copilot.CheckAuthStatusCmd, World.Do, hw, h200, hbody, hct, hq, formMediaType,
          herr, hnp]⟩

/-- C5, as stated, fails: for a device code with interval 10 and the answers
pending, pending, `access_token=T`, the loop ends authenticated with `T` after
three requests, but it slept 5 and 5 seconds, not 10 and 10. -/
theorem C5_wait_is_not_the_interval :
    deviceCode10.Interval = 10
      ∧ runLoop 4 (initialModel New) (Msg.deviceCodeMsg (some deviceCode10)) pollingWorld
        = RunResult.quit
            ⟨⟨0, 1, 0⟩, some deviceCode10, ⟨⟨[]⟩, ⟨str "T"⟩⟩, true, none, false⟩
            ⟨[], [Request.accessToken (str "dev"), Request.accessToken (str "dev"),
                Request.accessToken (str "dev")], [5, 5]⟩ := by
  decide

/-- C5, amended: for every device code, whatever its interval, when the polling
endpoint answers pending, pending, `access_token=T`, the loop started by the
device-code message ends by `tea.Quit`, authenticated, with the long-lived token
`T`, after exactly three requests, and the wait after each pending answer is
five seconds. Any bound of four or more messages is enough. -/
theorem C5_polling_three_requests (fuel : Nat) (m : model) (dc : DeviceCodeResponse)
    (w : World) (r1 r2 r3 : Response) (rest : List (Option Response)) (T : Bytes)
    (hw : w.replies = some r1 :: some r2 :: some r3 :: rest)
    (h1 : r1.isPending) (h2 : r2.isPending) (h3 : r3.grants T) :
    runLoop (fuel + 4) m (Msg.deviceCodeMsg (some dc)) w
      = RunResult.quit
          { m with deviceCode := some dc, c := { m.c with LlToken := ⟨T⟩ },
                   authenticated := true }
          ⟨rest,
            w.requests ++ [Request.accessToken dc.DeviceCode,
              Request.accessToken dc.DeviceCode, Request.accessToken dc.DeviceCode],
            w.slept ++ [5, 5]⟩ := by
  have e1 := CheckAuthStatusCmd_pending m.c dc.DeviceCode w r1 _ hw h1
  have e2 := CheckAuthStatusCmd_pending m.c dc.DeviceCode
    ⟨some r2 :: some r3 :: rest, w.requests ++ [Request.accessToken dc.DeviceCode],
      w.slept ++ [5]⟩ r2 _ rfl h2
  have e3 := CheckAuthStatusCmd_grants m.c dc.DeviceCode
    ⟨some r3 :: rest,
      (w.requests ++ [Request.accessToken dc.DeviceCode])
        ++ [Request.accessToken dc.DeviceCode],
      (w.slept ++ [5]) ++ [5]⟩ r3 _ T rfl h3
  simp only [List.append_assoc, List.cons_append, List.nil_append] at e1 e2 e3
  simp [runLoop, model.Update, model.checkAuth, e1, e2, e3]

/-- The amended C5 at the device code with interval 10 and the three example
answers. -/
theorem C5_polling_three_requests_witness :
    runLoop 4 (initialModel New) (Msg.deviceCodeMsg (some deviceCode10)) pollingWorld
      = RunResult.quit
          ⟨⟨0, 1, 0⟩, some deviceCode10, ⟨⟨[]⟩, ⟨str "T"⟩⟩, true, none, false⟩
          ⟨[], [Request.accessToken (str "dev"), Request.accessToken (str "dev"),
              Request.accessToken (str "dev")], [5, 5]⟩ :=
  C5_polling_three_requests 0 (initialModel New) deviceCode10 pollingWorld
    (formReply (str "error=authorization_pending&error_description=wait"))
    (formReply (str "error=authorization_pending&error_description=wait"))
    (formReply (str "access_token=T&token_type=bearer&scope=")) [] (str "T")
    rfl (by decide) (by decide) (by decide)

/-- C6: when the polling answer has status 200, the form-url-encoded media type and
an `error` value that is neither empty nor `authorization_pending`,
`CheckAuthStatusCmd` returns done with an error and leaves the `Copilot` as it
was; the loop turns this into an error message and quits after that single
polling request, and `setup` returns an error. Any bound of two or more messages
is enough. -/
theorem C6_denied_stops_polling (fuel : Nat) (c : Copilot) (dc : DeviceCodeResponse)
    (w0 w : World) (r : Response) (rest : List (Option Response))
    (hdc : Copilot.GetDeviceCodeCmd w0 = (Except.ok dc, w))
    (hw : w.replies = some r :: rest)
    (h200 : r.StatusCode = 200)
    (hct : (cut 59 r.ContentType).1 = formMediaType)
    (herr : (ParseQuery r.Body).1.Get (str "error") ≠ [])
    (hnp : (ParseQuery r.Body).1.Get (str "error") ≠ str "authorization_pending") :
    (c.CheckAuthStatusCmd dc.DeviceCode w).done = true
      ∧ (c.CheckAuthStatusCmd dc.DeviceCode w).err ≠ none
      ∧ (c.CheckAuthStatusCmd dc.DeviceCode w).c = c
      ∧ (∃ err, runLoop (fuel + 2) (initialModel c) (Msg.deviceCodeMsg (some dc)) w
          = RunResult.quit
              { initialModel c with deviceCode := some dc, err := some err }
              ⟨rest, w.requests ++ [Request.accessToken dc.DeviceCode], w.slept⟩)
      ∧ setup (fuel + 2) c w0
          = some (some GoError.authenticationFailed, c,
              ⟨rest, w.requests ++ [Request.accessToken dc.DeviceCode], w.slept⟩) := by
  obtain ⟨err, he⟩ := CheckAuthStatusCmd_denied c dc.DeviceCode w r rest hw h200 hct herr hnp
  have hrun : runLoop (fuel + 2) (initialModel c) (Msg.deviceCodeMsg (some dc)) w
      = RunResult.quit
          { initialModel c with deviceCode := some dc, err := some err }
          ⟨rest, w.requests ++ [Request.accessToken dc.DeviceCode], w.slept⟩ := by
    simp [runLoop, model.Update, model.checkAuth, initialModel, he]
  refine ⟨by rw [he], by rw [he]; simp, by rw [he], ⟨err, hrun⟩, ?_⟩
  unfold setup
  simp only [model.initCmd, hdc]
  rw [hrun]
  simp [initialModel]

/-- C6 at the device-code answer for `deviceCode10` followed by `error=access_denied`. -/
theorem C6_denied_stops_polling_witness :
    setup 2 New ⟨[some deviceCodeReply, some (formReply (str "error=access_denied"))], [], []⟩
      = some (some GoError.authenticationFailed, New,
          ⟨[], [Request.deviceCode] ++ [Request.accessToken deviceCode10.DeviceCode], []⟩) :=
  (C6_denied_stops_polling 0 New deviceCode10
    ⟨[some deviceCodeReply, some (formReply (str "error=access_denied"))], [], []⟩
    ⟨[some (formReply (str "error=access_denied"))], [Request.deviceCode], []⟩
    (formReply (str "error=access_denied")) []
    (by decide) rfl (by decide) (by decide) (by decide) (by decide)).2.2.2.2

/-- C7, as stated, fails: the answer `error=access_denied&access_token=T` has the
non-empty `access_token` value `T`, yet `CheckAuthStatusCmd` returns an error and
leaves the long-lived token empty. -/
theorem C7_error_value_comes_first :
    (ParseQuery (str "error=access_denied&access_token=T")).1.Get (str "access_token") = str "T"
      ∧ New.CheckAuthStatusCmd (str "dev")
          ⟨[some (formReply (str "error=access_denied&access_token=T"))], [], []⟩
        = ⟨true, some (GoError.checkAuthResponse (str "access_denied")), New,
            ⟨[], [Request.accessToken (str "dev")], []⟩⟩ := by
  decide

/-- C7, amended: when the polling answer has status 200, a readable body, the
form-url-encoded media type, a body `url.ParseQuery` accepts, no `error` value
and the non-empty `access_token` value `T`, `CheckAuthStatusCmd` returns done
without error and sets the long-lived token to `T`, whatever other fields the
body carries. -/
theorem C7_access_token_accepted (c : Copilot) (deviceCode : Bytes) (w : World)
    (r : Response) (rest : List (Option Response)) (T : Bytes)
    (hw : w.replies = some r :: rest) (hr : r.grants T) :
    (c.CheckAuthStatusCmd deviceCode w).done = true
      ∧ (c.CheckAuthStatusCmd deviceCode w).err = none
      ∧ (c.CheckAuthStatusCmd deviceCode w).c.LlToken = ⟨T⟩
      ∧ (c.CheckAuthStatusCmd deviceCode w).c.SlToken = c.SlToken := by
  rw [CheckAuthStatusCmd_grants c deviceCode w r rest T hw hr]
  exact ⟨rfl, rfl, rfl, rfl⟩

/-- The amended C7 at the answer `access_token=T&token_type=bearer&scope=`. -/
theorem C7_access_token_accepted_witness :
    (New.CheckAuthStatusCmd (str "dev")
        ⟨[some (formReply (str "access_token=T&token_type=bearer&scope="))], [], []⟩).c.LlToken
      = ⟨str "T"⟩ :=
  (C7_access_token_accepted New (str "dev")
    ⟨[some (formReply (str "access_token=T&token_type=bearer&scope="))], [], []⟩
    (formReply (str "access_token=T&token_type=bearer&scope=")) [] (str "T")
    rfl (by decide)).2.2.1

/-! ## The JSON parser never runs out of fuel -/

theorem skipSpace_length (s : Bytes) : (skipSpace s).length ≤ s.length := by
  induction s with
  | nil => simp [skipSpace]
  | cons c t ih =>
    rw [skipSpace]
    split
    · simp only [List.length_cons]
      omega
    · exact Nat.le_refl _

theorem parseStringFrom_length (s : Bytes) :
    ∀ (k : Nat) (out rest : Bytes), parseStringFrom k s = some (out, rest) →
      rest.length < s.length := by
  induction s with
  | nil =>
    intro k out rest h
    cases k <;> simp [parseStringFrom] at h
  | cons c t ih =>
    intro k out rest h
    cases k with
    | succ k =>
      rw [parseStringFrom] at h
      have := ih k out rest h
      simp only [List.length_cons]
      omega
    | zero =>
      rw [parseStringFrom] at h
      split at h
      · simp only [Option.some.injEq, Prod.mk.injEq] at h
        rw [← h.2]
        simp
      · cases h
      · rename_i bytes width hstep
        cases hp : parseStringFrom (width - 1) t with
        | none => simp [hp, emit] at h
        | some p =>
          simp only [hp, emit, Option.map_some', Option.some.injEq, Prod.mk.injEq] at h
          have := ih _ p.1 p.2 hp
          rw [← h.2]
          simp only [List.length_cons]
          omega

theorem parseString_length (s out rest : Bytes) (h : parseString s = some (out, rest)) :
    rest.length < s.length :=
  parseStringFrom_length s 0 out rest h

theorem spanDigits_length (s : Bytes) : (spanDigits s).2.length ≤ s.length := by
  induction s with
  | nil => simp [spanDigits]
  | cons c t ih =>
    rw [spanDigits]
    split
    · simp only [List.length_cons]
      omega
    · exact Nat.le_refl _

theorem parseExponent_length (s lit rest : Bytes) (h : parseExponent s = some (lit, rest)) :
    rest.length ≤ s.length := by
  unfold parseExponent at h
  split at h
  · rename_i e t
    split at h
    · split at h
      · rename_i sg t1
        split at h
        · split at h
          · cases h
          · simp only [Option.some.injEq, Prod.mk.injEq] at h
            rw [← h.2]
            have := spanDigits_length t1
            simp only [List.length_cons]
            omega
        · split at h
          · cases h
          · simp only [Option.some.injEq, Prod.mk.injEq] at h
            rw [← h.2]
            have := spanDigits_length (sg :: t1)
            simp only [List.length_cons] at this ⊢
            omega
      · cases h
    · simp only [Option.some.injEq, Prod.mk.injEq] at h
      rw [← h.2]
  · simp only [Option.some.injEq, Prod.mk.injEq] at h
    rw [← h.2]

theorem parseFraction_length (s lit rest : Bytes) (h : parseFraction s = some (lit, rest)) :
    rest.length ≤ s.length := by
  unfold parseFraction at h
  split at h
  · rename_i d t
    split at h
    · split at h
      · cases h
      · cases hp : parseExponent (spanDigits t).2 with
        | none => simp [hp] at h
        | some p =>
          simp only [hp, Option.map_some', Option.some.injEq, Prod.mk.injEq] at h
          have h1 := parseExponent_length _ p.1 p.2 hp
          have h2 := spanDigits_length t
          rw [← h.2]
          simp only [List.length_cons]
          omega
    · exact parseExponent_length _ lit rest h
  · simp only [Option.some.injEq, Prod.mk.injEq] at h
    rw [← h.2]

theorem parseUnsignedNumber_length (s lit rest : Bytes)
    (h : parseUnsignedNumber s = some (lit, rest)) : rest.length < s.length := by
  unfold parseUnsignedNumber at h
  split at h
  · rename_i c t
    split at h
    · cases hp : parseFraction t with
      | none => simp [hp] at h
      | some p =>
        simp only [hp, Option.map_some', Option.some.injEq, Prod.mk.injEq] at h
        have h1 := parseFraction_length _ p.1 p.2 hp
        rw [← h.2]
        simp only [List.length_cons]
        omega
    · split at h
      · cases hp : parseFraction (spanDigits t).2 with
        | none => simp [hp] at h
        | some p =>
          simp only [hp, Option.map_some', Option.some.injEq, Prod.mk.injEq] at h
          have h1 := parseFraction_length _ p.1 p.2 hp
          have h2 := spanDigits_length t
          rw [← h.2]
          simp only [List.length_cons]
          omega
      · cases h
  · cases h

theorem parseNumber_length (s lit rest : Bytes) (h : parseNumber s = some (lit, rest)) :
    rest.length < s.length := by
  unfold parseNumber at h
  split at h
  · rename_i c t
    split at h
    · cases hp : parseUnsignedNumber t with
      | none => simp [hp] at h
      | some p =>
        simp only [hp, Option.map_some', Option.some.injEq, Prod.mk.injEq] at h
        have h1 := parseUnsignedNumber_length _ p.1 p.2 hp
        rw [← h.2]
        simp only [List.length_cons]
        omega
    · exact parseUnsignedNumber_length _ lit rest h
  · cases h

theorem stripPrefix_length (s p r : Bytes) (h : stripPrefix s p = some r) :
    r.length ≤ s.length := by
  induction p generalizing s with
  | nil =>
    cases s <;> simp [stripPrefix] at h <;> subst h <;> simp
  | cons q ps ih =>
    cases s with
    | nil => simp [stripPrefix] at h
    | cons c t =>
      rw [stripPrefix] at h
      split at h
      · have := ih t h
        simp only [List.length_cons]
        omega
      · cases h

theorem skipSpace_cons_length (s rest : Bytes) (c : Nat) (h : skipSpace s = c :: rest) :
    rest.length < s.length := by
  have := skipSpace_length s
  rw [h] at this
  simp only [List.length_cons] at this
  omega

/-- Every parser of the mutual block consumes at least one byte when it succeeds. -/
theorem parse_length (fuel : Nat) : ∀ (d : Nat) (s : Bytes),
    (∀ v rest, parseValue fuel d s = some (v, rest) → rest.length < s.length)
      ∧ (∀ ms rest, parseMembers fuel d s = some (ms, rest) → rest.length < s.length)
      ∧ (∀ vs rest, parseElements fuel d s = some (vs, rest) → rest.length < s.length) := by
  induction fuel with
  | zero =>
    intro d s
    refine ⟨?_, ?_, ?_⟩ <;> intro _ _ h
    · rw [parseValue] at h
      cases h
    · rw [parseMembers] at h
      cases h
    · rw [parseElements] at h
      cases h
  | succ fuel ih =>
    intro d s
    refine ⟨?_, ?_, ?_⟩
    · intro v rest h
      cases s with
      | nil =>
        rw [parseValue] at h
        cases h
      | cons c t =>
        rw [parseValue] at h
        simp only [List.length_cons]
        split at h
        · split at h
          · cases h
          · split at h
            · cases h
            · rename_i d1 rest1 hs
              have hl := skipSpace_cons_length _ _ _ hs
              split at h
              · simp only [Option.some.injEq, Prod.mk.injEq] at h
                rw [← h.2]
                omega
              · cases hp : parseMembers fuel (d + 1) (d1 :: rest1) with
                | none => simp [hp] at h
                | some p =>
                  simp only [hp, Option.map_some', Option.some.injEq, Prod.mk.injEq] at h
                  have := (ih (d + 1) (d1 :: rest1)).2.1 p.1 p.2 hp
                  simp only [List.length_cons] at this
                  rw [← h.2]
                  omega
        · split at h
          · split at h
            · cases h
            · split at h
              · cases h
              · rename_i d1 rest1 hs
                have hl := skipSpace_cons_length _ _ _ hs
                split at h
                · simp only [Option.some.injEq, Prod.mk.injEq] at h
                  rw [← h.2]
                  omega
                · cases hp : parseElements fuel (d + 1) (d1 :: rest1) with
                  | none => simp [hp] at h
                  | some p =>
                    simp only [hp, Option.map_some', Option.some.injEq, Prod.mk.injEq] at h
                    have := (ih (d + 1) (d1 :: rest1)).2.2 p.1 p.2 hp
                    simp only [List.length_cons] at this
                    rw [← h.2]
                    omega
          · split at h
            · cases hp : parseString t with
              | none => simp [hp] at h
              | some p =>
                simp only [hp, Option.map_some', Option.some.injEq, Prod.mk.injEq] at h
                have := parseString_length t p.1 p.2 hp
                rw [← h.2]
                omega
            · split at h
              · cases hp : stripPrefix t (str "rue") with
                | none => simp [hp] at h
                | some r =>
                  simp only [hp, Option.map_some', Option.some.injEq, Prod.mk.injEq] at h
                  have := stripPrefix_length _ _ _ hp
                  rw [← h.2]
                  omega
              · split at h
                · cases hp : stripPrefix t (str "alse") with
                  | none => simp [hp] at h
                  | some r =>
                    simp only [hp, Option.map_some', Option.some.injEq, Prod.mk.injEq] at h
                    have := stripPrefix_length _ _ _ hp
                    rw [← h.2]
                    omega
                · split at h
                  · cases hp : stripPrefix t (str "ull") with
                    | none => simp [hp] at h
                    | some r =>
                      simp only [hp, Option.map_some', Option.some.injEq, Prod.mk.injEq] at h
                      have := stripPrefix_length _ _ _ hp
                      rw [← h.2]
                      omega
                  · cases hp : parseNumber (c :: t) with
                    | none => simp [hp] at h
                    | some p =>
                      simp only [hp, Option.map_some', Option.some.injEq, Prod.mk.injEq] at h
                      have := parseNumber_length _ p.1 p.2 hp
                      simp only [List.length_cons] at this
                      rw [← h.2]
                      omega
    · intro ms rest h
      cases s with
      | nil =>
        rw [parseMembers] at h
        cases h
      | cons q t =>
        rw [parseMembers] at h
        simp only [List.length_cons]
        split at h
        · split at h
          · cases h
          · rename_i key rest1 hk
            have l1 := parseString_length _ _ _ hk
            split at h
            · cases h
            · rename_i colon rest2 hs2
              have l2 := skipSpace_cons_length _ _ _ hs2
              split at h
              · split at h
                · cases h
                · rename_i v rest3 hv
                  have l3 := (ih d (skipSpace rest2)).1 v rest3 hv
                  have l3a := skipSpace_length rest2
                  split at h
                  · cases h
                  · rename_i d1 rest4 hs4
                    have l4 := skipSpace_cons_length _ _ _ hs4
                    split at h
                    · simp only [Option.some.injEq, Prod.mk.injEq] at h
                      rw [← h.2]
                      omega
                    · split at h
                      · cases hp : parseMembers fuel d (skipSpace rest4) with
                        | none => simp [hp] at h
                        | some p =>
                          simp only [hp, Option.map_some', Option.some.injEq,
                            Prod.mk.injEq] at h
                          have l5 := (ih d (skipSpace rest4)).2.1 p.1 p.2 hp
                          have l5a := skipSpace_length rest4
                          rw [← h.2]
                          omega
                      · cases h
              · cases h
        · cases h
    · intro vs rest h
      rw [parseElements] at h
      split at h
      · cases h
      · rename_i v rest1 hv
        have l1 := (ih d s).1 v rest1 hv
        split at h
        · cases h
        · rename_i d1 rest2 hs2
          have l2 := skipSpace_cons_length _ _ _ hs2
          split at h
          · simp only [Option.some.injEq, Prod.mk.injEq] at h
            rw [← h.2]
            omega
          · split at h
            · cases hp : parseElements fuel d (skipSpace rest2) with
              | none => simp [hp] at h
              | some p =>
                simp only [hp, Option.map_some', Option.some.injEq, Prod.mk.injEq] at h
                have l3 := (ih d (skipSpace rest2)).2.2 p.1 p.2 hp
                have l3a := skipSpace_length rest2
                rw [← h.2]
                omega
            · cases h

/-- One more unit of fuel changes nothing once the fuel exceeds twice the length of
the input. -/
theorem parse_fuel_succ (fuel : Nat) : ∀ (d : Nat) (s : Bytes),
    (2 * s.length < fuel → parseValue (fuel + 1) d s = parseValue fuel d s)
      ∧ (2 * s.length + 1 < fuel → parseMembers (fuel + 1) d s = parseMembers fuel d s)
      ∧ (2 * s.length + 1 < fuel → parseElements (fuel + 1) d s = parseElements fuel d s) := by
  induction fuel with
  | zero =>
    intro d s
    refine ⟨?_, ?_, ?_⟩ <;> intro h <;> omega
  | succ fuel ih =>
    intro d s
    refine ⟨?_, ?_, ?_⟩
    · intro hs
      cases s with
      | nil => rw [parseValue, parseValue]
      | cons c t =>
        simp only [List.length_cons] at hs
        rw [parseValue, parseValue]
        split
        · split
          · rfl
          · split
            · rfl
            · rename_i d1 rest1 hsk
              have hl := skipSpace_cons_length _ _ _ hsk
              split
              · rfl
              · rw [(ih (d + 1) (d1 :: rest1)).2.1 (by simp only [List.length_cons]; omega)]
        · split
          · split
            · rfl
            · split
              · rfl
              · rename_i d1 rest1 hsk
                have hl := skipSpace_cons_length _ _ _ hsk
                split
                · rfl
                · rw [(ih (d + 1) (d1 :: rest1)).2.2 (by simp only [List.length_cons]; omega)]
          · rfl
    · intro hs
      cases s with
      | nil => rw [parseMembers, parseMembers]
      | cons q t =>
        simp only [List.length_cons] at hs
        rw [parseMembers, parseMembers]
        split
        · split
          · rfl
          · rename_i key rest1 hk
            have l1 := parseString_length _ _ _ hk
            split
            · rfl
            · rename_i colon rest2 hs2
              have l2 := skipSpace_cons_length _ _ _ hs2
              have l2a := skipSpace_length rest2
              split
              · rw [(ih d (skipSpace rest2)).1 (by omega)]
                split
                · rfl
                · rename_i v rest3 hv
                  have l3 := (parse_length fuel d (skipSpace rest2)).1 v rest3 hv
                  split
                  · rfl
                  · rename_i d1 rest4 hs4
                    have l4 := skipSpace_cons_length _ _ _ hs4
                    have l4a := skipSpace_length rest4
                    split
                    · rfl
                    · split
                      · rw [(ih d (skipSpace rest4)).2.1 (by omega)]
                      · rfl
              · rfl
        · rfl
    · intro hs
      rw [parseElements, parseElements, (ih d s).1 (by omega)]
      split
      · rfl
      · rename_i v rest1 hv
        have l1 := (parse_length fuel d s).1 v rest1 hv
        split
        · rfl
        · rename_i d1 rest2 hs2
          have l2 := skipSpace_cons_length _ _ _ hs2
          have l2a := skipSpace_length rest2
          split
          · rfl
          · split
            · rw [(ih d (skipSpace rest2)).2.2 (by omega)]
            · rfl

/-- The result of `parseValue` does not depend on the fuel once the fuel exceeds
twice the length of the input: the bound used by `parseDocument` and `parseFirst`
never cuts a parse short. -/
theorem parseValue_fuel (k fuel d : Nat) (s : Bytes) (h : 2 * s.length < fuel) :
    parseValue (fuel + k) d s = parseValue fuel d s := by
  induction k with
  | zero => rfl
  | succ k ih =>
    rw [← Nat.add_assoc, (parse_fuel_succ (fuel + k) d s).1 (by omega), ih]

/-! ## The token file -/

theorem hexDigit_hexChar (n : Nat) (h : n < 16) : hexDigit (hexChar n) = some n := by
  unfold hexChar hexDigit
  split
  · rw [if_pos (by omega)]
    congr 1
    omega
  · rw [if_neg (by omega), if_pos (by omega)]
    congr 1
    omega

theorem DecodeRune_two (b b1 : Nat) (r : Bytes)
    (h0 : 0xC2 ≤ b) (h1 : b < 0xE0) (h2 : 0x80 ≤ b1) (h3 : b1 ≤ 0xBF) :
    DecodeRune (b :: b1 :: r) = (b % 32 * 64 + b1 % 64, 2) := by
  simp only [DecodeRune]
  rw [if_neg (by omega), if_neg (by omega), if_pos (by omega)]
  rw [if_pos ⟨h2, h3⟩]

theorem DecodeRune_three (b b1 b2 : Nat) (r : Bytes)
    (h0 : 0xE0 ≤ b) (h1 : b < 0xF0)
    (h2 : (if b = 0xE0 then 0xA0 else 0x80) ≤ b1)
    (h3 : b1 ≤ (if b = 0xED then 0x9F else 0xBF))
    (h4 : 0x80 ≤ b2) (h5 : b2 ≤ 0xBF) :
    DecodeRune (b :: b1 :: b2 :: r) = (b % 16 * 4096 + b1 % 64 * 64 + b2 % 64, 3) := by
  simp only [DecodeRune]
  rw [if_neg (by omega), if_neg (by omega), if_neg (by omega), if_pos (by omega)]
  rw [if_pos ⟨h2, h3, h4, h5⟩]

theorem DecodeRune_four (b b1 b2 b3 : Nat) (r : Bytes)
    (h0 : 0xF0 ≤ b) (h1 : b < 0xF5)
    (h2 : (if b = 0xF0 then 0x90 else 0x80) ≤ b1)
    (h3 : b1 ≤ (if b = 0xF4 then 0x8F else 0xBF))
    (h4 : 0x80 ≤ b2) (h5 : b2 ≤ 0xBF) (h6 : 0x80 ≤ b3) (h7 : b3 ≤ 0xBF) :
    DecodeRune (b :: b1 :: b2 :: b3 :: r)
      = (b % 8 * 262144 + b1 % 64 * 4096 + b2 % 64 * 64 + b3 % 64, 4) := by
  simp only [DecodeRune]
  rw [if_neg (by omega), if_neg (by omega), if_neg (by omega), if_neg (by omega),
    if_pos (by omega)]
  rw [if_pos ⟨h2, h3, h4, h5, h6, h7⟩]

/-- The width `DecodeRune` reports tells the shape of the input: the bounds on the
leading byte and on the continuation bytes. -/
theorem DecodeRune_width (b : Nat) (rest : Bytes) (hb : ¬ b < 0x80) :
    ((DecodeRune (b :: rest)).2 = 2 →
        ∃ b1 r, rest = b1 :: r ∧ 0xC2 ≤ b ∧ b < 0xE0 ∧ 0x80 ≤ b1 ∧ b1 ≤ 0xBF)
      ∧ ((DecodeRune (b :: rest)).2 = 3 →
        ∃ b1 b2 r, rest = b1 :: b2 :: r ∧ 0xE0 ≤ b ∧ b < 0xF0
          ∧ (if b = 0xE0 then 0xA0 else 0x80) ≤ b1 ∧ b1 ≤ (if b = 0xED then 0x9F else 0xBF)
          ∧ 0x80 ≤ b2 ∧ b2 ≤ 0xBF)
      ∧ ((DecodeRune (b :: rest)).2 = 4 →
        ∃ b1 b2 b3 r, rest = b1 :: b2 :: b3 :: r ∧ 0xF0 ≤ b ∧ b < 0xF5
          ∧ (if b = 0xF0 then 0x90 else 0x80) ≤ b1 ∧ b1 ≤ (if b = 0xF4 then 0x8F else 0xBF)
          ∧ 0x80 ≤ b2 ∧ b2 ≤ 0xBF ∧ 0x80 ≤ b3 ∧ b3 ≤ 0xBF) := by
  simp only [DecodeRune]
  rw [if_neg hb]
  by_cases h1 : b < 0xC2
  · rw [if_pos h1]
    simp
  · rw [if_neg h1]
    by_cases h2 : b < 0xE0
    · rw [if_pos h2]
      cases rest with
      | nil => simp
      | cons b1 r =>
        simp only
        by_cases hc : 0x80 ≤ b1 ∧ b1 ≤ 0xBF
        · rw [if_pos hc]
          refine ⟨fun _ => ⟨b1, r, rfl, by omega, h2, hc.1, hc.2⟩, by simp, by simp⟩
        · rw [if_neg hc]
          simp
    · rw [if_neg h2]
      by_cases h3 : b < 0xF0
      · rw [if_pos h3]
        match rest with
        | [] => simp
        | [_] => simp
        | b1 :: b2 :: r =>
          simp only
          by_cases hc : (if b = 0xE0 then 0xA0 else 0x80) ≤ b1
              ∧ b1 ≤ (if b = 0xED then 0x9F else 0xBF) ∧ 0x80 ≤ b2 ∧ b2 ≤ 0xBF
          · rw [if_pos hc]
            refine ⟨by simp, fun _ => ⟨b1, b2, r, rfl, by omega, h3, hc.1, hc.2.1, hc.2.2.1,
              hc.2.2.2⟩, by simp⟩
          · rw [if_neg hc]
            simp
      · rw [if_neg h3]
        by_cases h4 : b < 0xF5
        · rw [if_pos h4]
          match rest with
          | [] => simp
          | [_] => simp
          | [_, _] => simp
          | b1 :: b2 :: b3 :: r =>
            simp only
            by_cases hc : (if b = 0xF0 then 0x90 else 0x80) ≤ b1
                ∧ b1 ≤ (if b = 0xF4 then 0x8F else 0xBF) ∧ 0x80 ≤ b2 ∧ b2 ≤ 0xBF
                ∧ 0x80 ≤ b3 ∧ b3 ≤ 0xBF
            · rw [if_pos hc]
              refine ⟨by simp, by simp, fun _ => ⟨b1, b2, b3, r, rfl, by omega, h4, hc.1,
                hc.2.1, hc.2.2.1, hc.2.2.2.1, hc.2.2.2.2.1, hc.2.2.2.2.2⟩⟩
            · rw [if_neg hc]
              simp
        · rw [if_neg h4]
          simp

theorem EncodeRune_two (b b1 : Nat)
    (h0 : 0xC2 ≤ b) (h1 : b < 0xE0) (h2 : 0x80 ≤ b1) (h3 : b1 ≤ 0xBF) :
    EncodeRune (b % 32 * 64 + b1 % 64) = [b, b1] := by
  unfold EncodeRune
  rw [if_neg (by omega), if_pos (by omega)]
  congr 1
  · omega
  · congr 1
    omega

theorem EncodeRune_three (b b1 b2 : Nat)
    (h0 : 0xE0 ≤ b) (h1 : b < 0xF0)
    (h2 : (if b = 0xE0 then 0xA0 else 0x80) ≤ b1)
    (h3 : b1 ≤ (if b = 0xED then 0x9F else 0xBF))
    (h4 : 0x80 ≤ b2) (h5 : b2 ≤ 0xBF) :
    EncodeRune (b % 16 * 4096 + b1 % 64 * 64 + b2 % 64) = [b, b1, b2] := by
  unfold EncodeRune
  split at h2 <;> split at h3 <;>
    (rw [if_neg (by omega), if_neg (by omega), if_neg (by omega), if_pos (by omega)]
     congr 1
     · omega
     · congr 1
       · omega
       · congr 1
         omega)

theorem EncodeRune_four (b b1 b2 b3 : Nat)
    (h0 : 0xF0 ≤ b) (h1 : b < 0xF5)
    (h2 : (if b = 0xF0 then 0x90 else 0x80) ≤ b1)
    (h3 : b1 ≤ (if b = 0xF4 then 0x8F else 0xBF))
    (h4 : 0x80 ≤ b2) (h5 : b2 ≤ 0xBF) (h6 : 0x80 ≤ b3) (h7 : b3 ≤ 0xBF) :
    EncodeRune (b % 8 * 262144 + b1 % 64 * 4096 + b2 % 64 * 64 + b3 % 64)
      = [b, b1, b2, b3] := by
  unfold EncodeRune
  split at h2 <;> split at h3 <;>
    (rw [if_neg (by omega), if_neg (by omega), if_neg (by omega), if_neg (by omega)]
     congr 1
     · omega
     · congr 1
       · omega
       · congr 1
         · omega
         · congr 1
           omega)

theorem hex4_low (b : Nat) (h : b < 256) :
    hex4 48 48 (hexChar (b / 16)) (hexChar (b % 16)) = some b := by
  have h0 : hexDigit 48 = some 0 := by decide
  unfold hex4
  rw [h0, hexDigit_hexChar _ (by omega), hexDigit_hexChar _ (by omega)]
  simp only [Option.some.injEq]
  omega

theorem parseStringFrom_skip (pre r : Bytes) :
    parseStringFrom pre.length (pre ++ r) = parseStringFrom 0 r := by
  induction pre with
  | nil => rfl
  | cons x pre ih =>
    show parseStringFrom (pre.length + 1) (x :: (pre ++ r)) = _
    rw [parseStringFrom]
    exact ih

theorem appendStringFrom_skip (pre r : Bytes) :
    appendStringFrom pre.length (pre ++ r) = appendStringFrom 0 r := by
  induction pre with
  | nil => rfl
  | cons x pre ih =>
    show appendStringFrom (pre.length + 1) (x :: (pre ++ r)) = _
    rw [appendStringFrom]
    exact ih

theorem validFrom_skip (pre r : Bytes) :
    validFrom pre.length (pre ++ r) = validFrom 0 r := by
  induction pre with
  | nil => rfl
  | cons x pre ih =>
    show validFrom (pre.length + 1) (x :: (pre ++ r)) = _
    rw [validFrom]
    exact ih

/-- When the step at the head of a string unquotes `bytes` from `c :: e`, the string
unquotes to `bytes` followed by what the text after `e` unquotes to. -/
theorem parseString_of_step (c : Nat) (e X bytes : Bytes)
    (h : stringStep (c :: (e ++ X)) = StringStep.out bytes (e.length + 1)) :
    parseString (c :: (e ++ X)) = emit bytes (parseString X) := by
  unfold parseString
  rw [parseStringFrom, h]
  simp only [Nat.add_sub_cancel]
  rw [parseStringFrom_skip]

/-- When the encoder writes `out` for the rune `b :: pre`, the body of the whole
string is `out` followed by the body of the rest. -/
theorem appendStringBody_of_step (b : Nat) (pre r out : Bytes)
    (h : appendStringStep b (pre ++ r) = (out, pre.length + 1)) :
    appendStringBody (b :: (pre ++ r)) = out ++ appendStringBody r := by
  unfold appendStringBody
  rw [appendStringFrom, h]
  simp only [Nat.add_sub_cancel]
  rw [appendStringFrom_skip]

theorem stringStep_high (b : Nat) (rest : Bytes) (hb : ¬ b < 0x80) :
    stringStep (b :: rest)
      = StringStep.out (EncodeRune (DecodeRune (b :: rest)).1) (DecodeRune (b :: rest)).2 := by
  simp only [stringStep]
  rw [if_neg (by omega), if_neg (by omega), if_neg (by omega), if_neg hb]

/-- An ASCII byte: the encoder writes one byte or one escape, which unquotes to the
byte. -/
theorem stringStep_ascii (b : Nat) (rest X : Bytes) (hb : b < 0x80) :
    ∃ c e, appendStringStep b rest = (c :: e, 1)
      ∧ stringStep (c :: (e ++ X)) = StringStep.out [b] (e.length + 1) := by
  unfold appendStringStep
  rw [if_pos hb]
  by_cases hs : htmlSafe b = true
  · rw [if_pos hs]
    refine ⟨b, [], rfl, ?_⟩
    simp only [htmlSafe, Bool.and_eq_true, decide_eq_true_eq, bne_iff_ne, ne_eq] at hs
    simp only [stringStep, List.nil_append, List.length_nil, Nat.zero_add]
    rw [if_neg (by omega), if_neg (by omega), if_neg (by omega), if_pos hb]
  · rw [if_neg hs]
    by_cases h1 : b = 92 ∨ b = 34
    · rw [if_pos h1]
      rcases h1 with h1 | h1 <;> subst h1 <;> exact ⟨92, _, rfl, rfl⟩
    · rw [if_neg h1]
      by_cases h2 : b = 8
      · subst h2
        exact ⟨92, _, rfl, rfl⟩
      · rw [if_neg h2]
        by_cases h3 : b = 12
        · subst h3
          exact ⟨92, _, rfl, rfl⟩
        · rw [if_neg h3]
          by_cases h4 : b = 10
          · subst h4
            exact ⟨92, _, rfl, rfl⟩
          · rw [if_neg h4]
            by_cases h5 : b = 13
            · subst h5
              exact ⟨92, _, rfl, rfl⟩
            · rw [if_neg h5]
              by_cases h6 : b = 9
              · subst h6
                exact ⟨92, _, rfl, rfl⟩
              · rw [if_neg h6]
                refine ⟨92, _, rfl, ?_⟩
                have hE : EncodeRune b = [b] := by
                  unfold EncodeRune
                  rw [if_pos (by omega)]
                simp only [stringStep, List.cons_append, List.nil_append, hex4_low b (by omega)]
                simp only [if_true, hE]
                rw [if_neg (by omega : ¬ (55296 ≤ b ∧ b < 57344))]
                rfl

theorem DecodeRune_width_cases (b : Nat) (rest : Bytes) (hb : ¬ b < 0x80) :
    (DecodeRune (b :: rest)).2 = 1 ∨ (DecodeRune (b :: rest)).2 = 2
      ∨ (DecodeRune (b :: rest)).2 = 3 ∨ (DecodeRune (b :: rest)).2 = 4 := by
  simp only [DecodeRune]
  rw [if_neg hb]
  repeat' split
  all_goals simp

/-- A well-formed rune of two to four bytes: the encoder writes its bytes, or the
escape of U+2028 or U+2029, and what it writes unquotes to the bytes of the
rune. -/
theorem stringStep_rune (b : Nat) (rest : Bytes) (hb : ¬ b < 0x80)
    (hw : (DecodeRune (b :: rest)).2 ≠ 1) :
    ∃ pre r out, rest = pre ++ r ∧ (DecodeRune (b :: rest)).2 = pre.length + 1
      ∧ appendStringStep b rest = (out, pre.length + 1)
      ∧ ∀ X, ∃ c e, out = c :: e
          ∧ stringStep (c :: (e ++ X)) = StringStep.out (b :: pre) (e.length + 1) := by
  have hwidth := DecodeRune_width b rest hb
  rcases DecodeRune_width_cases b rest hb with h | h | h | h
  · exact absurd h hw
  · obtain ⟨b1, r, hr, h0, h1, h2, h3⟩ := hwidth.1 h
    subst hr
    have hd := DecodeRune_two b b1 r h0 h1 h2 h3
    refine ⟨[b1], r, [b, b1], rfl, h, ?_, ?_⟩
    · unfold appendStringStep
      rw [if_neg hb, hd]
      simp only [List.length_singleton]
      rw [if_neg (by omega), if_neg (by omega)]
      rfl
    · intro X
      refine ⟨b, [b1], rfl, ?_⟩
      rw [stringStep_high _ _ hb]
      show StringStep.out (EncodeRune (DecodeRune (b :: b1 :: X)).1)
        (DecodeRune (b :: b1 :: X)).2 = _
      rw [DecodeRune_two b b1 X h0 h1 h2 h3, EncodeRune_two b b1 h0 h1 h2 h3]
      rfl
  · obtain ⟨b1, b2, r, hr, h0, h1, h2, h3, h4, h5⟩ := hwidth.2.1 h
    subst hr
    have hd := DecodeRune_three b b1 b2 r h0 h1 h2 h3 h4 h5
    have he := EncodeRune_three b b1 b2 h0 h1 h2 h3 h4 h5
    have hne : ¬ (b % 16 * 4096 + b1 % 64 * 64 + b2 % 64 = RuneError ∧ 3 = 1) := by omega
    by_cases hR : b % 16 * 4096 + b1 % 64 * 64 + b2 % 64 = 0x2028
        ∨ b % 16 * 4096 + b1 % 64 * 64 + b2 % 64 = 0x2029
    · refine ⟨[b1, b2], r,
        [92, 117, 50, 48, 50, hexChar ((b % 16 * 4096 + b1 % 64 * 64 + b2 % 64) % 16)],
        rfl, h, ?_, ?_⟩
      · unfold appendStringStep
        rw [if_neg hb, hd]
        simp only
        rw [if_neg hne, if_pos hR]
        rfl
      · intro X
        refine ⟨92, _, rfl, ?_⟩
        rw [← he]
        rcases hR with hR | hR <;> rw [hR] <;> rfl
    · refine ⟨[b1, b2], r, [b, b1, b2], rfl, h, ?_, ?_⟩
      · unfold appendStringStep
        rw [if_neg hb, hd]
        simp only
        rw [if_neg hne, if_neg hR]
        rfl
      · intro X
        refine ⟨b, [b1, b2], rfl, ?_⟩
        rw [stringStep_high _ _ hb]
        show StringStep.out (EncodeRune (DecodeRune (b :: b1 :: b2 :: X)).1)
          (DecodeRune (b :: b1 :: b2 :: X)).2 = _
        rw [DecodeRune_three b b1 b2 X h0 h1 h2 h3 h4 h5, he]
        rfl
  · obtain ⟨b1, b2, b3, r, hr, h0, h1, h2, h3, h4, h5, h6, h7⟩ := hwidth.2.2 h
    subst hr
    have hd := DecodeRune_four b b1 b2 b3 r h0 h1 h2 h3 h4 h5 h6 h7
    have he := EncodeRune_four b b1 b2 b3 h0 h1 h2 h3 h4 h5 h6 h7
    have hlow : 0x10000 ≤ b % 8 * 262144 + b1 % 64 * 4096 + b2 % 64 * 64 + b3 % 64 := by
      split at h2 <;> split at h3 <;> omega
    refine ⟨[b1, b2, b3], r, [b, b1, b2, b3], rfl, h, ?_, ?_⟩
    · unfold appendStringStep
      rw [if_neg hb, hd]
      simp only
      rw [if_neg (by omega), if_neg (by omega)]
      rfl
    · intro X
      refine ⟨b, [b1, b2, b3], rfl, ?_⟩
      rw [stringStep_high _ _ hb]
      show StringStep.out (EncodeRune (DecodeRune (b :: b1 :: b2 :: b3 :: X)).1)
        (DecodeRune (b :: b1 :: b2 :: b3 :: X)).2 = _
      rw [DecodeRune_four b b1 b2 b3 X h0 h1 h2 h3 h4 h5 h6 h7, he]
      rfl

/-- Unquoting what the encoder writes for a well-formed UTF-8 string gives the string
back, and stops right after the closing quote. -/
theorem parseString_appendStringBody (n : Nat) :
    ∀ (s tail : Bytes), s.length ≤ n → Valid s = true →
      parseString (appendStringBody s ++ 34 :: tail) = some (s, tail) := by
  induction n with
  | zero =>
    intro s tail hl _
    cases s with
    | nil => rfl
    | cons b rest => simp at hl
  | succ n ih =>
    intro s tail hl hv
    cases s with
    | nil => rfl
    | cons b rest =>
      simp only [List.length_cons] at hl
      by_cases hb : b < 0x80
      · have hv1 : Valid rest = true := by
          unfold Valid at hv ⊢
          rw [validFrom, if_pos hb] at hv
          exact hv
        obtain ⟨c, e, hstep, hparse⟩ :=
          stringStep_ascii b rest (appendStringBody rest ++ 34 :: tail) hb
        have happ : appendStringBody (b :: rest) = (c :: e) ++ appendStringBody rest :=
          appendStringBody_of_step b [] rest (c :: e) hstep
        rw [happ]
        simp only [List.cons_append, List.append_assoc]
        rw [parseString_of_step c e _ [b] hparse, ih rest tail (by omega) hv1]
        rfl
      · have hv0 := hv
        unfold Valid at hv0
        rw [validFrom, if_neg hb] at hv0
        have hw : (DecodeRune (b :: rest)).2 ≠ 1 := by
          intro h1
          rw [if_pos h1] at hv0
          exact Bool.false_ne_true hv0
        rw [if_neg hw] at hv0
        obtain ⟨pre, r, out, hr, hwid, hstep, hparse⟩ := stringStep_rune b rest hb hw
        subst hr
        rw [hwid, Nat.add_sub_cancel, validFrom_skip] at hv0
        obtain ⟨c, e, hout, hp⟩ := hparse (appendStringBody r ++ 34 :: tail)
        subst hout
        rw [appendStringBody_of_step b pre r (c :: e) hstep]
        simp only [List.cons_append, List.append_assoc]
        rw [parseString_of_step c e _ (b :: pre) hp,
          ih r tail (by simp only [List.length_append] at hl; omega) hv0]
        rfl

theorem skipSpace_cons (c : Nat) (rest : Bytes) (h : isSpace c = false) :
    skipSpace (c :: rest) = c :: rest := by
  rw [skipSpace, h]
  rfl

theorem parseValue_string (fuel depth : Nat) (s X : Bytes) (hv : Valid s = true) :
    parseValue (fuel + 1) depth (34 :: (appendStringBody s ++ 34 :: X))
      = some (JValue.string s, X) := by
  rw [parseValue]
  rw [if_neg (by decide), if_neg (by decide), if_pos rfl,
    parseString_appendStringBody s.length s X (Nat.le_refl _) hv]
  rfl

/-- The last member `"key":"s"` of an object, as the encoder writes it. -/
theorem parseMembers_last (fuel depth : Nat) (key s X : Bytes)
    (hk : Valid key = true) (hv : Valid s = true) :
    parseMembers (fuel + 2) depth
        (34 :: (appendStringBody key ++ 34 :: 58 :: 34 :: (appendStringBody s ++ 34 :: 125 :: X)))
      = some ([(key, JValue.string s)], X) := by
  rw [parseMembers]
  rw [if_pos rfl, parseString_appendStringBody key.length key _ (Nat.le_refl _) hk]
  simp only
  rw [skipSpace_cons 58 _ (by decide)]
  simp only
  rw [if_pos trivial, skipSpace_cons 34 _ (by decide), parseValue_string fuel depth s _ hv]
  simp only
  rw [skipSpace_cons 125 _ (by decide)]
  simp only
  rw [if_pos trivial]

/-- A member `"key":"s"` followed by a comma and more members, as the encoder
writes it. -/
theorem parseMembers_more (fuel depth : Nat) (key s more : Bytes)
    (hk : Valid key = true) (hv : Valid s = true) :
    parseMembers (fuel + 2) depth
        (34 :: (appendStringBody key ++ 34 :: 58 :: 34
          :: (appendStringBody s ++ 34 :: 44 :: 34 :: more)))
      = (parseMembers (fuel + 1) depth (34 :: more)).map
          (fun p => ((key, JValue.string s) :: p.1, p.2)) := by
  rw [parseMembers]
  rw [if_pos rfl, parseString_appendStringBody key.length key _ (Nat.le_refl _) hk]
  simp only
  rw [skipSpace_cons 58 _ (by decide)]
  simp only
  rw [if_pos trivial, skipSpace_cons 34 _ (by decide), parseValue_string fuel depth s _ hv]
  simp only
  rw [skipSpace_cons 44 _ (by decide)]
  simp only
  rw [if_neg (by decide), if_pos trivial, skipSpace_cons 34 _ (by decide)]

/-- The bytes `Config.Encode` writes, spelled out. -/
theorem Config_Encode_eq (cfg : Config) :
    Config.Encode cfg
      = 123 :: 34 :: (appendStringBody (str "shortLivedToken") ++ 34 :: 58 :: 34
          :: (appendStringBody cfg.ShortLivedToken ++ 34 :: 44 :: 34
            :: (appendStringBody (str "longLivedToken") ++ 34 :: 58 :: 34
              :: (appendStringBody cfg.LongLivedToken ++ 34 :: 125 :: [10])))) := by
  have e1 : str "\x7b\"shortLivedToken\":"
      = 123 :: 34 :: (appendStringBody (str "shortLivedToken") ++ [34, 58]) := by decide
  have e2 : str ",\"longLivedToken\":"
      = 44 :: 34 :: (appendStringBody (str "longLivedToken") ++ [34, 58]) := by decide
  have e3 : str "\x7d\n" = [125, 10] := by decide
  unfold Config.Encode appendString
  rw [e1, e2, e3]
  simp only [List.cons_append, List.append_assoc, List.nil_append]

/-- What `Config.Encode` writes for a record of well-formed UTF-8 tokens parses
as the object of the two tokens. -/
theorem parseDocument_Config_Encode (cfg : Config)
    (h1 : Valid cfg.ShortLivedToken = true) (h2 : Valid cfg.LongLivedToken = true) :
    parseDocument (Config.Encode cfg)
      = some (JValue.object [(str "shortLivedToken", JValue.string cfg.ShortLivedToken),
          (str "longLivedToken", JValue.string cfg.LongLivedToken)]) := by
  have hlen : ∃ k, 2 * (Config.Encode cfg).length + 1 = k + 4 := by
    refine ⟨2 * (Config.Encode cfg).length - 3, ?_⟩
    have : 3 ≤ (Config.Encode cfg).length := by
      rw [Config_Encode_eq]
      simp only [List.length_cons, List.length_append]
      omega
    omega
  obtain ⟨k, hk⟩ := hlen
  unfold parseDocument
  rw [hk, Config_Encode_eq, skipSpace_cons 123 _ (by decide), parseValue]
  rw [if_pos rfl, if_neg (by decide), skipSpace_cons 34 _ (by decide)]
  simp only
  rw [if_neg (by decide),
    parseMembers_more (k + 1) 1 (str "shortLivedToken") cfg.ShortLivedToken _ (by decide) h1,
    parseMembers_last k 1 (str "longLivedToken") cfg.LongLivedToken _ (by decide) h2]
  rfl

/-- Round trip of the encoding: a record of well-formed UTF-8 tokens is read back
identical. -/
theorem Config_Unmarshal_Encode (cfg : Config)
    (h1 : Valid cfg.ShortLivedToken = true) (h2 : Valid cfg.LongLivedToken = true) :
    Config.Unmarshal (Config.Encode cfg) = some cfg := by
  have f1 : fieldMatch (str "shortLivedToken") (str "shortLivedToken") = true := by decide
  have f2 : fieldMatch (str "longLivedToken") (str "shortLivedToken") = false := by decide
  have f3 : fieldMatch (str "longLivedToken") (str "longLivedToken") = true := by decide
  unfold Config.Unmarshal
  rw [parseDocument_Config_Encode cfg h1 h2]
  simp [Config.storeMembers, f1, f2, f3, storeString]

/-- C8, as stated, fails: the record whose short-lived token is the single byte
0xFF (not valid UTF-8) is stored without error, and the following `getConfig`
returns a record whose short-lived token is the three bytes of U+FFFD. -/
theorem C8_invalid_utf8_is_replaced :
    (storeConfig ⟨[0xFF], str "gho_x"⟩ freshFS).1 = none
      ∧ getConfig (storeConfig ⟨[0xFF], str "gho_x"⟩ freshFS).2
          = Except.ok (some ⟨[0xEF, 0xBF, 0xBD], str "gho_x"⟩)
      ∧ ([0xEF, 0xBF, 0xBD] : Bytes) ≠ [0xFF] := by
  decide

/-- C8, amended: for every record whose two tokens are well-formed UTF-8, if
`storeConfig` succeeds and the token file can be read afterwards, the following
`getConfig` returns a non-nil record whose two tokens are byte for byte the ones
written. -/
theorem C8_store_then_load (cfg : Config) (fs fs1 : FS)
    (hstore : storeConfig cfg fs = (none, fs1))
    (hs : Valid cfg.ShortLivedToken = true) (hl : Valid cfg.LongLivedToken = true)
    (hread : fs1.readFails = false) :
    getConfig fs1 = Except.ok (some cfg) := by
  have hfile : fs1.file = some cfg.Encode := by
    unfold storeConfig at hstore
    split at hstore
    · simp at hstore
    · split at hstore
      · simp at hstore
      · split at hstore
        · simp at hstore
        · split at hstore
          · simp at hstore
          · simp only [Prod.mk.injEq, true_and] at hstore
            rw [← hstore]
    · split at hstore
      · simp at hstore
      · split at hstore
        · simp at hstore
        · simp only [Prod.mk.injEq, true_and] at hstore
          rw [← hstore]
  unfold getConfig
  rw [hfile]
  simp only [hread, Bool.false_eq_true, if_false, Config_Unmarshal_Encode cfg hs hl]

/-- The amended C8 at the record with the tokens `exp=100` and `gho_x`, stored into a
fresh file system. -/
theorem C8_store_then_load_witness :
    getConfig (storeConfig ⟨str "exp=100", str "gho_x"⟩ freshFS).2
      = Except.ok (some ⟨str "exp=100", str "gho_x"⟩) :=
  C8_store_then_load ⟨str "exp=100", str "gho_x"⟩ freshFS
    (storeConfig ⟨str "exp=100", str "gho_x"⟩ freshFS).2 (by decide) (by decide) (by decide)
    (by decide)

/-! ## Decoded strings are well-formed UTF-8 -/

theorem Valid_ascii (c : Nat) (t : Bytes) (h : c < 0x80) : Valid (c :: t) = Valid t := by
  unfold Valid
  rw [validFrom, if_pos h]

theorem Valid_two (b b1 : Nat) (t : Bytes)
    (h0 : 0xC2 ≤ b) (h1 : b < 0xE0) (h2 : 0x80 ≤ b1) (h3 : b1 ≤ 0xBF) :
    Valid (b :: b1 :: t) = Valid t := by
  unfold Valid
  rw [validFrom, if_neg (by omega), DecodeRune_two b b1 t h0 h1 h2 h3]
  rfl

theorem Valid_three (b b1 b2 : Nat) (t : Bytes)
    (h0 : 0xE0 ≤ b) (h1 : b < 0xF0)
    (h2 : (if b = 0xE0 then 0xA0 else 0x80) ≤ b1)
    (h3 : b1 ≤ (if b = 0xED then 0x9F else 0xBF))
    (h4 : 0x80 ≤ b2) (h5 : b2 ≤ 0xBF) :
    Valid (b :: b1 :: b2 :: t) = Valid t := by
  unfold Valid
  rw [validFrom, if_neg (by omega), DecodeRune_three b b1 b2 t h0 h1 h2 h3 h4 h5]
  rfl

theorem Valid_four (b b1 b2 b3 : Nat) (t : Bytes)
    (h0 : 0xF0 ≤ b) (h1 : b < 0xF5)
    (h2 : (if b = 0xF0 then 0x90 else 0x80) ≤ b1)
    (h3 : b1 ≤ (if b = 0xF4 then 0x8F else 0xBF))
    (h4 : 0x80 ≤ b2) (h5 : b2 ≤ 0xBF) (h6 : 0x80 ≤ b3) (h7 : b3 ≤ 0xBF) :
    Valid (b :: b1 :: b2 :: b3 :: t) = Valid t := by
  unfold Valid
  rw [validFrom, if_neg (by omega), DecodeRune_four b b1 b2 b3 t h0 h1 h2 h3 h4 h5 h6 h7]
  rfl

/-- What `EncodeRune` writes is one well-formed rune. -/
theorem Valid_EncodeRune_append (r : Nat) (t : Bytes) :
    Valid (EncodeRune r ++ t) = Valid t := by
  unfold EncodeRune
  split
  · exact Valid_ascii r t (by omega)
  · split
    · exact Valid_two _ _ t (by omega) (by omega) (by omega) (by omega)
    · split
      · exact Valid_three 0xEF 0xBF 0xBD t (by decide) (by decide) (by decide) (by decide)
          (by decide) (by decide)
      · split
        · refine Valid_three _ _ _ t (by omega) (by omega) ?_ ?_ (by omega) (by omega)
          · split <;> omega
          · split <;> omega
        · refine Valid_four _ _ _ _ t (by omega) (by omega) ?_ ?_ (by omega) (by omega)
            (by omega) (by omega)
          · split <;> omega
          · split <;> omega

theorem simpleEscape_lt (e b : Nat) (h : simpleEscape e = some b) : b < 0x80 := by
  unfold simpleEscape at h
  split_ifs at h <;> simp at h <;> omega

/-- What one step unquotes is well-formed UTF-8. -/
theorem stringStep_valid (s bytes : Bytes) (w : Nat) (h : stringStep s = StringStep.out bytes w)
    (t : Bytes) : Valid (bytes ++ t) = Valid t := by
  unfold stringStep at h
  split at h
  · cases h
  · rename_i c rest
    split at h
    · cases h
    · split at h
      · split at h
        · cases h
        · rename_i e rest1
          split at h
          · split at h
            · split at h
              · cases h
              · split at h
                · split at h
                  · simp only [StringStep.out.injEq] at h
                    rw [← h.1]
                    exact Valid_EncodeRune_append _ t
                  · simp only [StringStep.out.injEq] at h
                    rw [← h.1]
                    exact Valid_EncodeRune_append _ t
                · simp only [StringStep.out.injEq] at h
                  rw [← h.1]
                  exact Valid_EncodeRune_append _ t
            · cases h
          · split at h
            · rename_i b hb
              simp only [StringStep.out.injEq] at h
              rw [← h.1]
              exact Valid_ascii b t (simpleEscape_lt e b hb)
            · cases h
      · split at h
        · cases h
        · split at h
          · rename_i hc
            simp only [StringStep.out.injEq] at h
            rw [← h.1]
            exact Valid_ascii c t hc
          · simp only [StringStep.out.injEq] at h
            rw [← h.1]
            exact Valid_EncodeRune_append _ t

/-- A string the decoder unquotes is well-formed UTF-8. -/
theorem parseStringFrom_valid (s : Bytes) :
    ∀ (k : Nat) (out rest : Bytes), parseStringFrom k s = some (out, rest) →
      Valid out = true := by
  induction s with
  | nil =>
    intro k out rest h
    cases k <;> simp [parseStringFrom] at h
  | cons c t ih =>
    intro k out rest h
    cases k with
    | succ k =>
      rw [parseStringFrom] at h
      exact ih k out rest h
    | zero =>
      rw [parseStringFrom] at h
      split at h
      · simp only [Option.some.injEq, Prod.mk.injEq] at h
        rw [← h.1]
        rfl
      · cases h
      · rename_i bytes width hstep
        cases hp : parseStringFrom (width - 1) t with
        | none => simp [hp, emit] at h
        | some p =>
          simp only [hp, emit, Option.map_some', Option.some.injEq, Prod.mk.injEq] at h
          rw [← h.1, stringStep_valid _ _ _ hstep]
          exact ih _ p.1 p.2 hp

theorem parseString_valid (s out rest : Bytes) (h : parseString s = some (out, rest)) :
    Valid out = true :=
  parseStringFrom_valid s 0 out rest h

/-- A string value the parser returns is well-formed UTF-8. -/
theorem parseValue_string_valid (fuel d : Nat) (s : Bytes) (x rest : Bytes)
    (h : parseValue fuel d s = some (JValue.string x, rest)) : Valid x = true := by
  cases fuel with
  | zero =>
    rw [parseValue] at h
    cases h
  | succ fuel =>
    cases s with
    | nil =>
      rw [parseValue] at h
      cases h
    | cons c t =>
      rw [parseValue] at h
      split at h
      · split at h
        · cases h
        · split at h
          · cases h
          · split at h
            · simp at h
            · obtain ⟨p, _, hp2⟩ := Option.map_eq_some'.mp h
              simp at hp2
      · split at h
        · split at h
          · cases h
          · split at h
            · cases h
            · split at h
              · simp at h
              · obtain ⟨p, _, hp2⟩ := Option.map_eq_some'.mp h
                simp at hp2
        · split at h
          · cases hp : parseString t with
            | none => simp [hp] at h
            | some p =>
              simp only [hp, Option.map_some', Option.some.injEq, Prod.mk.injEq,
                JValue.string.injEq] at h
              rw [← h.1]
              exact parseString_valid t p.1 p.2 hp
          · split at h
            · cases hp : stripPrefix t (str "rue") with
              | none => simp [hp] at h
              | some p => simp [hp] at h
            · split at h
              · cases hp : stripPrefix t (str "alse") with
                | none => simp [hp] at h
                | some p => simp [hp] at h
              · split at h
                · cases hp : stripPrefix t (str "ull") with
                  | none => simp [hp] at h
                  | some p => simp [hp] at h
                · cases hp : parseNumber (c :: t) with
                  | none => simp [hp] at h
                  | some p => simp [hp] at h

/-- Every string value among the members the parser returns is well-formed UTF-8. -/
theorem parseMembers_strings_valid (fuel : Nat) :
    ∀ (d : Nat) (s : Bytes) (ms : List (Bytes × JValue)) (rest : Bytes),
      parseMembers fuel d s = some (ms, rest) →
      ∀ k x, (k, JValue.string x) ∈ ms → Valid x = true := by
  induction fuel with
  | zero =>
    intro d s ms rest h
    rw [parseMembers] at h
    cases h
  | succ fuel ih =>
    intro d s ms rest h
    cases s with
    | nil =>
      rw [parseMembers] at h
      cases h
    | cons q t =>
      rw [parseMembers] at h
      split at h
      · split at h
        · cases h
        · rename_i key rest1 hk
          split at h
          · cases h
          · rename_i colon rest2 hs2
            split at h
            · split at h
              · cases h
              · rename_i v rest3 hv
                split at h
                · cases h
                · rename_i d1 rest4 hs4
                  split at h
                  · simp only [Option.some.injEq, Prod.mk.injEq] at h
                    intro k x hmem
                    rw [← h.1] at hmem
                    simp only [List.mem_singleton, Prod.mk.injEq] at hmem
                    rw [← hmem.2] at hv
                    exact parseValue_string_valid _ _ _ _ _ hv
                  · split at h
                    · cases hp : parseMembers fuel d (skipSpace rest4) with
                      | none => simp [hp] at h
                      | some p =>
                        simp only [hp, Option.map_some', Option.some.injEq,
                          Prod.mk.injEq] at h
                        intro k x hmem
                        rw [← h.1] at hmem
                        rcases List.mem_cons.mp hmem with h1 | h1
                        · simp only [Prod.mk.injEq] at h1
                          rw [← h1.2] at hv
                          exact parseValue_string_valid _ _ _ _ _ hv
                        · exact ih d _ p.1 p.2 hp k x h1
                    · cases h
            · cases h
      · cases h

/-- Every string value among the members of an object the parser returns is
well-formed UTF-8. -/
theorem parseValue_object_valid (fuel d : Nat) (s : Bytes) (ms : List (Bytes × JValue))
    (rest : Bytes) (h : parseValue fuel d s = some (JValue.object ms, rest)) :
    ∀ k x, (k, JValue.string x) ∈ ms → Valid x = true := by
  cases fuel with
  | zero =>
    rw [parseValue] at h
    cases h
  | succ fuel =>
    cases s with
    | nil =>
      rw [parseValue] at h
      cases h
    | cons c t =>
      rw [parseValue] at h
      split at h
      · split at h
        · cases h
        · split at h
          · cases h
          · split at h
            · simp only [Option.some.injEq, Prod.mk.injEq, JValue.object.injEq] at h
              intro k x hmem
              rw [← h.1] at hmem
              cases hmem
            · obtain ⟨p, hp, hp2⟩ := Option.map_eq_some'.mp h
              simp only [Prod.mk.injEq, JValue.object.injEq] at hp2
              rw [← hp2.1]
              exact parseMembers_strings_valid fuel _ _ p.1 p.2 hp
      · split at h
        · split at h
          · cases h
          · split at h
            · cases h
            · split at h
              · simp at h
              · obtain ⟨p, _, hp2⟩ := Option.map_eq_some'.mp h
                simp at hp2
        · split at h
          · cases hp : parseString t with
            | none => simp [hp] at h
            | some p => simp [hp] at h
          · split at h
            · cases hp : stripPrefix t (str "rue") with
              | none => simp [hp] at h
              | some p => simp [hp] at h
            · split at h
              · cases hp : stripPrefix t (str "alse") with
                | none => simp [hp] at h
                | some p => simp [hp] at h
              · split at h
                · cases hp : stripPrefix t (str "ull") with
                  | none => simp [hp] at h
                  | some p => simp [hp] at h
                · cases hp : parseNumber (c :: t) with
                  | none => simp [hp] at h
                  | some p => simp [hp] at h

theorem storeString_valid (v : JValue) (cur : Bytes) (hcur : Valid cur = true)
    (hv : ∀ x, v = JValue.string x → Valid x = true) : Valid (storeString v cur).1 = true := by
  unfold storeString
  split
  · exact hv _ rfl
  · exact hcur
  · exact hcur

/-- The tokens of a record stored from parsed members are well-formed UTF-8. -/
theorem Config_storeMembers_valid (ms : List (Bytes × JValue))
    (hms : ∀ k x, (k, JValue.string x) ∈ ms → Valid x = true) :
    ∀ (acc : Config × Bool), Valid acc.1.ShortLivedToken = true →
      Valid acc.1.LongLivedToken = true →
      Valid (Config.storeMembers ms acc).1.ShortLivedToken = true
        ∧ Valid (Config.storeMembers ms acc).1.LongLivedToken = true := by
  induction ms with
  | nil =>
    intro acc h1 h2
    exact ⟨h1, h2⟩
  | cons m rest ih =>
    intro acc h1 h2
    obtain ⟨k, v⟩ := m
    obtain ⟨cur, ok⟩ := acc
    have hrest : ∀ k x, (k, JValue.string x) ∈ rest → Valid x = true :=
      fun k x hx => hms k x (List.mem_cons_of_mem _ hx)
    have hv : ∀ x, v = JValue.string x → Valid x = true :=
      fun x hx => hms k x (hx ▸ List.mem_cons_self _ _)
    rw [Config.storeMembers]
    split
    · exact ih hrest _ (storeString_valid v _ h1 hv) h2
    · split
      · exact ih hrest _ h1 (storeString_valid v _ h2 hv)
      · exact ih hrest _ h1 h2

/-- The tokens `getConfig` loads are well-formed UTF-8. -/
theorem Config_Unmarshal_valid (data : Bytes) (cfg : Config)
    (h : Config.Unmarshal data = some cfg) :
    Valid cfg.ShortLivedToken = true ∧ Valid cfg.LongLivedToken = true := by
  unfold Config.Unmarshal at h
  split at h
  · cases h
  · rename_i ms hdoc
    simp only at h
    split at h
    · simp only [Option.some.injEq] at h
      rw [← h]
      unfold parseDocument at hdoc
      split at hdoc
      · cases hdoc
      · rename_i v rest hpv
        split at hdoc
        · simp only [Option.some.injEq] at hdoc
          rw [hdoc] at hpv
          exact Config_storeMembers_valid ms (parseValue_object_valid _ _ _ _ _ hpv) _ rfl rfl
        · cases hdoc
    · cases h
  · simp only [Option.some.injEq] at h
    rw [← h]
    exact ⟨rfl, rfl⟩
  · cases h

theorem TokenResponse_storeMembers_valid (ms : List (Bytes × JValue))
    (hms : ∀ k x, (k, JValue.string x) ∈ ms → Valid x = true) :
    ∀ (acc : TokenResponse × Bool), Valid acc.1.Token = true →
      Valid (TokenResponse.storeMembers ms acc).1.Token = true := by
  induction ms with
  | nil =>
    intro acc h1
    exact h1
  | cons m rest ih =>
    intro acc h1
    obtain ⟨k, v⟩ := m
    obtain ⟨cur, ok⟩ := acc
    have hrest : ∀ k x, (k, JValue.string x) ∈ rest → Valid x = true :=
      fun k x hx => hms k x (List.mem_cons_of_mem _ hx)
    have hv : ∀ x, v = JValue.string x → Valid x = true :=
      fun x hx => hms k x (hx ▸ List.mem_cons_self _ _)
    rw [TokenResponse.storeMembers]
    split
    · exact ih hrest _ (storeString_valid v _ h1 hv)
    · exact ih hrest _ h1

/-- The token `RefreshToken` decodes from a response is well-formed UTF-8. -/
theorem TokenResponse_Decode_valid (body : Bytes) (bodyErr : Bool) (tr : TokenResponse)
    (h : TokenResponse.Decode body bodyErr = some tr) : Valid tr.Token = true := by
  unfold TokenResponse.Decode at h
  split at h
  · cases h
  · rename_i ms hdoc
    simp only at h
    split at h
    · simp only [Option.some.injEq] at h
      rw [← h]
      unfold parseFirst at hdoc
      split at hdoc
      · cases hdoc
      · rename_i ms1 rest hpv
        simp only [Option.some.injEq, JValue.object.injEq] at hdoc
        rw [hdoc] at hpv
        exact TokenResponse_storeMembers_valid ms (parseValue_object_valid _ _ _ _ _ hpv) _ rfl
      · simp at hdoc
      · rename_i v rest hno hna hpv
        split at hdoc
        · cases hdoc
        · simp only [Option.some.injEq] at hdoc
          exact absurd hdoc (hno ms)
    · cases h
  · simp only [Option.some.injEq] at h
    rw [← h]
    rfl
  · cases h

/-! ## Checking and updating the tokens -/

/-- The token response with the single member `token` decodes to that token. -/
theorem TokenResponse_Decode_tokenBody (T : Bytes) (bodyErr : Bool) (hT : Valid T = true) :
    TokenResponse.Decode (tokenBody T) bodyErr = some ⟨T⟩ := by
  have e1 : str "\x7b\"token\":" = 123 :: 34 :: (appendStringBody (str "token") ++ [34, 58]) := by
    decide
  have e2 : str "\x7d" = [125] := by decide
  have hbody : tokenBody T
      = 123 :: 34 :: (appendStringBody (str "token") ++ 34 :: 58 :: 34
          :: (appendStringBody T ++ 34 :: 125 :: [])) := by
    unfold tokenBody appendString
    rw [e1, e2]
    simp only [List.cons_append, List.append_assoc, List.nil_append]
  have hlen : ∃ k, 2 * (tokenBody T).length + 1 = k + 3 := by
    refine ⟨2 * (tokenBody T).length - 2, ?_⟩
    have : 2 ≤ (tokenBody T).length := by
      rw [hbody]
      simp only [List.length_cons]
      omega
    omega
  obtain ⟨k, hk⟩ := hlen
  have f1 : fieldMatch (str "token") (str "token") = true := by decide
  have hparse : parseFirst (tokenBody T) bodyErr
      = some (JValue.object [(str "token", JValue.string T)]) := by
    unfold parseFirst
    rw [hk, hbody, skipSpace_cons 123 _ (by decide), parseValue]
    rw [if_pos rfl, if_neg (by decide), skipSpace_cons 34 _ (by decide)]
    simp only
    rw [if_neg (by decide),
      parseMembers_last k 1 (str "token") T _ (by decide) hT]
    rfl
  unfold TokenResponse.Decode
  rw [hparse]
  simp [TokenResponse.storeMembers, f1, storeString]

/-- A successful `storeConfig` leaves the encoding of the record in the token file and
does not touch the read fault. -/
theorem storeConfig_ok_file (cfg : Config) (fs fs1 : FS)
    (hstore : storeConfig cfg fs = (none, fs1)) :
    fs1.file = some cfg.Encode ∧ fs1.readFails = fs.readFails := by
  unfold storeConfig at hstore
  split at hstore
  · simp at hstore
  · split at hstore
    · simp at hstore
    · split at hstore
      · simp at hstore
      · split at hstore
        · simp at hstore
        · simp only [Prod.mk.injEq, true_and] at hstore
          rw [← hstore]
          exact ⟨rfl, rfl⟩
  · split at hstore
    · simp at hstore
    · split at hstore
      · simp at hstore
      · simp only [Prod.mk.injEq, true_and] at hstore
        rw [← hstore]
        exact ⟨rfl, rfl⟩

/-- A record `getConfig` loads has well-formed UTF-8 tokens, and the token file could
be read. -/
theorem getConfig_ok_valid (fs : FS) (cfg : Config)
    (hload : getConfig fs = Except.ok (some cfg)) :
    Valid cfg.ShortLivedToken = true ∧ Valid cfg.LongLivedToken = true
      ∧ fs.readFails = false := by
  unfold getConfig at hload
  split at hload
  · simp at hload
  · split at hload
    · simp at hload
    · rename_i hread
      split at hload
      · simp at hload
      · rename_i cfg1 hun
        simp only [Except.ok.injEq, Option.some.injEq] at hload
        rw [← hload]
        have := Config_Unmarshal_valid _ _ hun
        exact ⟨this.1, this.2, by simpa using hread⟩

/-- What `RefreshToken` does when it returns nil: one request, authorised with the
long-lived token, whose answer decodes to the short-lived token now held; the
long-lived token is untouched. -/
theorem RefreshToken_ok (c c1 : Copilot) (w w1 : World)
    (h : c.RefreshToken w = (none, c1, w1)) :
    ∃ resp rest, w.replies = some resp :: rest
      ∧ TokenResponse.Decode resp.Body resp.bodyErr = some ⟨c1.SlToken.Token⟩
      ∧ w1 = ⟨rest, w.requests ++ [Request.copilotToken c.LlToken.Token], w.slept⟩
      ∧ c1.LlToken = c.LlToken := by
  unfold Copilot.RefreshToken at h
  split at h
  · simp at h
  · cases hrep : w.replies with
    | nil => simp [World.Do, hrep] at h
    | cons r0 rs =>
      cases r0 with
      | none => simp [World.Do, hrep] at h
      | some resp =>
        cases hdec : TokenResponse.Decode resp.Body resp.bodyErr with
        | none => simp [World.Do, hrep, hdec] at h
        | some tokenResp =>
          simp only [World.Do, hrep, hdec, Prod.mk.injEq, true_and] at h
          obtain ⟨hc1, hw1⟩ := h
          subst hc1
          cases tokenResp
          exact ⟨resp, rs, rfl, hdec, hw1.symm, rfl⟩

/-- C4, as stated, fails: the cached record is loaded, its short-lived token `exp=100`
is expired at the instant 200, the refresh succeeds with the token `exp=9999`,
but the write of the updated record fails on the full disk: the process exits
at `log.Fatal`, and the token file, truncated when it was opened, is empty, so
the stored record no longer holds the long-lived token. -/
theorem C4_failed_write_loses_the_record :
    getConfig fullDiskFS = Except.ok (some ⟨str "exp=100", str "gho_x"⟩)
      ∧ (shortLivedToken.mk (str "exp=100")).Expired (Time.mk (200 + unixToInternal) 0) = true
      ∧ Copilot.RefreshToken ⟨⟨str "exp=100"⟩, ⟨str "gho_x"⟩⟩ refreshWorld
          = (none, ⟨⟨str "exp=9999"⟩, ⟨str "gho_x"⟩⟩,
              ⟨[], [Request.copilotToken (str "gho_x")], []⟩)
      ∧ checkAndUpdateTokens 0 (Time.mk (200 + unixToInternal) 0) New refreshWorld fullDiskFS
          = Outcome.fatal (Fatal.storeUpdatedConfig ConfigError.encodeToken)
              ⟨⟨str "exp=9999"⟩, ⟨str "gho_x"⟩⟩
              ⟨[], [Request.copilotToken (str "gho_x")], []⟩
              { fullDiskFS with file := some [] }
      ∧ getConfig { fullDiskFS with file := some [] }
          = Except.error ConfigError.invalidToken := by
  decide

/-- C4, amended: with a cached record `cfg` loaded by `getConfig`. If its short-lived
token is not expired, `checkAndUpdateTokens` returns with exactly the two loaded
tokens, the world unchanged (no request) and the file system unchanged (nothing
written). If it is expired, `RefreshToken` returns nil and the updated record is
stored without error, then exactly one request was sent, the refresh request
authorised with the loaded long-lived token; the short-lived token is the token
decoded from its answer; the function returns with that short-lived token and
the loaded long-lived token; and the token file holds the encoding of exactly
that record, which a following `getConfig` reads back. An answer whose body is
the JSON object with the member `token` set to `T` makes the refresh succeed
with the short-lived token `T`. -/
theorem C4_cached_record (fuel : Nat) (now : Time) (c : Copilot) (w : World) (fs : FS)
    (cfg : Config) (hload : getConfig fs = Except.ok (some cfg)) :
    ((shortLivedToken.mk cfg.ShortLivedToken).Expired now = false →
        checkAndUpdateTokens fuel now c w fs
          = Outcome.returned ⟨⟨cfg.ShortLivedToken⟩, ⟨cfg.LongLivedToken⟩⟩ w fs)
      ∧ (∀ c1 w1 fs1, (shortLivedToken.mk cfg.ShortLivedToken).Expired now = true →
          Copilot.RefreshToken ⟨⟨cfg.ShortLivedToken⟩, ⟨cfg.LongLivedToken⟩⟩ w = (none, c1, w1) →
          storeConfig ⟨c1.SlToken.Token, cfg.LongLivedToken⟩ fs = (none, fs1) →
          (∃ resp rest, w.replies = some resp :: rest
            ∧ TokenResponse.Decode resp.Body resp.bodyErr = some ⟨c1.SlToken.Token⟩
            ∧ w1 = ⟨rest, w.requests ++ [Request.copilotToken cfg.LongLivedToken], w.slept⟩)
          ∧ checkAndUpdateTokens fuel now c w fs
              = Outcome.returned ⟨c1.SlToken, ⟨cfg.LongLivedToken⟩⟩ w1 fs1
          ∧ fs1.file = some (Config.Encode ⟨c1.SlToken.Token, cfg.LongLivedToken⟩)
          ∧ getConfig fs1 = Except.ok (some ⟨c1.SlToken.Token, cfg.LongLivedToken⟩))
      ∧ (∀ T resp rest, Valid T = true → cfg.LongLivedToken ≠ [] →
          w.replies = some resp :: rest → resp.Body = tokenBody T →
          Copilot.RefreshToken ⟨⟨cfg.ShortLivedToken⟩, ⟨cfg.LongLivedToken⟩⟩ w
            = (none, ⟨⟨T⟩, ⟨cfg.LongLivedToken⟩⟩,
                ⟨rest, w.requests ++ [Request.copilotToken cfg.LongLivedToken], w.slept⟩)) := by
  refine ⟨?_, ?_, ?_⟩
  · intro hexp
    simp [checkAndUpdateTokens, hload, ensureValid, hexp]
  · intro c1 w1 fs1 hexp href hstore
    obtain ⟨resp, rest, hrep, hdec, hw1, hll⟩ := RefreshToken_ok _ _ _ _ href
    obtain ⟨hvS, hvL, hread⟩ := getConfig_ok_valid fs cfg hload
    obtain ⟨hfile, hrf⟩ := storeConfig_ok_file _ _ _ hstore
    have hvT : Valid c1.SlToken.Token = true :=
      TokenResponse_Decode_valid _ _ ⟨c1.SlToken.Token⟩ hdec
    refine ⟨⟨resp, rest, hrep, hdec, hw1⟩, ?_, hfile, ?_⟩
    · simp only [checkAndUpdateTokens, hload, ensureValid, hexp, if_true, href, hstore]
    · unfold getConfig
      rw [hfile]
      simp only [hrf, hread, Bool.false_eq_true, if_false,
        Config_Unmarshal_Encode ⟨c1.SlToken.Token, cfg.LongLivedToken⟩ hvT hvL]
  · intro T resp rest hT hL hrep hbody
    unfold Copilot.RefreshToken
    simp only [hL, if_false, World.Do, hrep, hbody, TokenResponse_Decode_tokenBody T _ hT]

/-- The amended C4 at the cached record with the short-lived token `exp=100`, read at
the instant 200 when it is expired, with a world whose next answer carries the
token `exp=9999`: one refresh request, the new short-lived token, the loaded
long-lived token, and a token file that reads back as that record. -/
theorem C4_cached_record_witness :
    checkAndUpdateTokens 0 (Time.mk (200 + unixToInternal) 0) New refreshWorld cachedFS
        = Outcome.returned ⟨⟨str "exp=9999"⟩, ⟨str "gho_x"⟩⟩
            ⟨[], [Request.copilotToken (str "gho_x")], []⟩
            (storeConfig ⟨str "exp=9999", str "gho_x"⟩ cachedFS).2
      ∧ getConfig (storeConfig ⟨str "exp=9999", str "gho_x"⟩ cachedFS).2
        = Except.ok (some ⟨str "exp=9999", str "gho_x"⟩) :=
  have h := (C4_cached_record 0 (Time.mk (200 + unixToInternal) 0) New refreshWorld cachedFS
    ⟨str "exp=100", str "gho_x"⟩ (by decide)).2.1
    ⟨⟨str "exp=9999"⟩, ⟨str "gho_x"⟩⟩ ⟨[], [Request.copilotToken (str "gho_x")], []⟩
    (storeConfig ⟨str "exp=9999", str "gho_x"⟩ cachedFS).2
    (by decide) (by decide) (by decide)
  ⟨h.2.1, h.2.2.2⟩

end Gopilot
